import Mathlib

/-!
Verification of the atomforge FDO compilation / transport pipeline.

Shallow embedding of the core components of the repository:
* `p3_payload_builder.py` — token table, packet building, segmentation, header parsing;
* `p3_frame_parser.py` — P3 frame parsing;
* `fdo_detector.py` — FDO auto-detection inside P3 frames;
* `fdo_manual_compiler.py` — manual hex-pair atom compiler;
* `fdo_chunker.py` — the AOLBUF chunker;
* `jsonl_processor.py` — two-pass streaming JSONL extraction;
* `fdo_daemon_pool_manager.py` / `fdo_daemon_pool_client.py` — worker pool dispatch,
  health monitoring, and the retrying pool client.

Python byte strings are modelled as `List Nat` (each entry a byte value), Python `str`
as `List Char`, floating-point timestamps as `ℚ`, and wall-clock instants as natural
numbers counted in milliseconds.  Fallible code returns `Except String`.  External
effects (the native worker compile RPC, health probes, restart outcomes) are passed in
as explicit oracle functions.
-/

namespace AtomForge

/-- Python strings are modelled as lists of characters. -/
abbrev PyStr := List Char

/-- Byte strings are modelled as lists of byte values. -/
abbrev Bytes := List Nat

/-! ### Small helpers shared by several components -/

/-- Little-endian encoding of `n` into `w` bytes; models `int.to_bytes(w, "little")`
after the caller has checked `n < 256^w`. -/
def toLEBytes : Nat → Nat → Bytes
  | 0, _ => []
  | w + 1, n => (n % 256) :: toLEBytes w (n / 256)

/-- Little-endian decoding; models `int.from_bytes(bs, "little")`. -/
def fromLEBytes (bs : Bytes) : Nat :=
  bs.foldr (fun b acc => b + 256 * acc) 0

/-- Big-endian decoding of two bytes; models `struct.unpack(">H", ...)`. -/
def fromBE2 (b0 b1 : Nat) : Nat := b0 * 256 + b1

/-- Right-strip zero bytes; models `bytes.rstrip(b"\x00")`. -/
def rstripNul (bs : Bytes) : Bytes :=
  (bs.reverse.dropWhile (· = 0)).reverse

/-- Decode bytes as ASCII, dropping non-ASCII bytes; models
`bytes.decode("ascii", errors="ignore")`. -/
def decodeAsciiIgnore (bs : Bytes) : PyStr :=
  (bs.filter (· < 128)).map Char.ofNat

/-- Encode an ASCII string to bytes; `str.encode("ascii")` fails on non-ASCII input. -/
def encodeAscii (s : PyStr) : Except String Bytes :=
  if s.all (fun c => c.toNat < 128) then .ok (s.map Char.toNat)
  else .error "UnicodeEncodeError"

/-! ### `p3_payload_builder.py` — class `P3PayloadBuilder` -/

/-- `P3PayloadBuilder.TOKEN_STREAM_ID_SIZES`: the curated token table mapping each
two-character token to its stream-id width in bytes. -/
def TOKEN_STREAM_ID_SIZES : List (PyStr × Nat) :=
  [ (['A','T'], 2), (['a','t'], 4), (['A','t'], 3), (['f','1'], 2), (['f','f'], 2),
    (['D','D'], 2), (['D','d'], 2), (['D','3'], 2), (['N','X'], 2), (['O','T'], 2),
    (['X','S'], 2), (['A','a'], 2), (['a','S'], 2), (['i','O'], 2), (['M','E'], 2),
    (['f','h'], 2), (['i','S'], 2), (['C','A'], 2) ]

/-- Table lookup; models `token in TOKEN_STREAM_ID_SIZES` / subscripting. -/
def tokenWidth (token : PyStr) : Option Nat :=
  (TOKEN_STREAM_ID_SIZES.find? (fun p => p.1 = token)).map (·.2)

/-- `P3PayloadBuilder.MAX_SEGMENT_SIZE` (255, the hard segment limit). -/
def MAX_SEGMENT_SIZE : Nat := 0xFF

/-- `P3PayloadBuilder.MAX_OUTBOUND_SIZE` (119, the per-packet outbound limit). -/
def MAX_OUTBOUND_SIZE : Nat := 119

/-- `P3PayloadBuilder.CONTINUATION_MARKER` (0x80). -/
def CONTINUATION_MARKER : Nat := 0x80

/-- Pad or truncate the encoded token to exactly two bytes; models
`token.encode("ascii")[:2].ljust(2, b"\x00")`. -/
def tokenTwoBytes (enc : Bytes) : Bytes :=
  let t := enc.take 2
  t ++ List.replicate (2 - t.length) 0

/-- `P3PayloadBuilder.build_packet(data, stream_id, token)`: emits
`token(2) ++ stream_id_le(w) ++ data`, rejecting unknown tokens and out-of-range
stream ids. -/
def buildPacket (data : Bytes) (streamId : Nat) (token : PyStr) : Except String Bytes :=
  match tokenWidth token with
  | none => .error "Invalid token"
  | some w =>
    if streamId > (1 <<< (w * 8)) - 1 then .error "stream_id out of range"
    else
      match encodeAscii token with
      | .error e => .error e
      | .ok enc => .ok (tokenTwoBytes enc ++ toLEBytes w streamId ++ data)

/-- `P3PayloadBuilder.get_header_size(token)`: `2 + width`, rejecting unknown tokens. -/
def getHeaderSize (token : PyStr) : Except String Nat :=
  match tokenWidth token with
  | none => .error "Invalid token"
  | some w => .ok (2 + w)

/-- The continuation-marker loop of `segment_data_if_needed`: repeatedly take
`chunk_size = min(MAX_SEGMENT_SIZE - 1, remaining)` bytes and emit
`(0x80 ||| chunk_size) :: chunk`. -/
def segmentRest (rest : Bytes) : List Bytes :=
  if h : rest = [] then []
  else
    let chunk := rest.take (MAX_SEGMENT_SIZE - 1)
    ((CONTINUATION_MARKER ||| chunk.length) :: chunk) :: segmentRest (rest.drop (MAX_SEGMENT_SIZE - 1))
termination_by rest.length
decreasing_by
  simp only [List.length_drop, MAX_SEGMENT_SIZE]
  have hlen : 0 < rest.length := List.length_pos.mpr h
  omega

/-- `P3PayloadBuilder.segment_data_if_needed(data)`: data of at most 255 bytes is a
single unmarked segment; otherwise the first 255 bytes go out verbatim and the rest is
cut into marked continuation segments. -/
def segmentDataIfNeeded (data : Bytes) : List Bytes :=
  if data.length ≤ MAX_SEGMENT_SIZE then [data]
  else data.take MAX_SEGMENT_SIZE :: segmentRest (data.drop MAX_SEGMENT_SIZE)

/-- Result of `P3PayloadBuilder.parse_packet_header`. -/
structure PacketHeader where
  token : PyStr
  streamId : Nat
  headerSize : Nat
  dataSize : Nat
  data : Bytes
deriving Repr, DecidableEq

/-- `P3PayloadBuilder.parse_packet_header(packet)`: reads the two-byte token
(right-stripping NUL, decoding ASCII with errors ignored), looks up the stream-id
width (rejecting unknown tokens), checks the packet is long enough, and splits off
the little-endian stream id and the data. -/
def parsePacketHeader (packet : Bytes) : Except String PacketHeader :=
  if packet.length < 2 then .error "Packet too short for token"
  else
    let token := decodeAsciiIgnore (rstripNul (packet.take 2))
    match tokenWidth token with
    | none => .error "Unknown token in packet header"
    | some w =>
      let headerSize := 2 + w
      if packet.length < headerSize then .error "Packet too short for token width"
      else
        let data := packet.drop headerSize
        .ok { token := token
              streamId := fromLEBytes ((packet.drop 2).take w)
              headerSize := headerSize
              dataSize := data.length
              data := data }

/-! ### `p3_frame_parser.py` — class `P3FrameParser` -/

/-- `P3FrameParser.SYNC_BYTE`. -/
def SYNC_BYTE : Nat := 0x5A

/-- `P3FrameParser.MSG_END_BYTE`. -/
def MSG_END_BYTE : Nat := 0x0D

/-- `P3FrameParser.MIN_FRAME_SIZE`. -/
def MIN_FRAME_SIZE : Nat := 9

/-- Result of `P3FrameParser.parse_frame`. -/
structure ParsedFrame where
  sync : Nat
  crc : Nat
  length : Nat
  txSeq : Nat
  rxSeq : Nat
  typeField : Nat
  packetTypeValue : Nat
  clientPacket : Bool
  data : Bytes
  dataLength : Nat
  frameSize : Nat
deriving Repr, DecidableEq

/-- `P3FrameParser.parse_frame(frame_bytes)`: validates the sync byte, reads (without
verifying) the CRC, reads the big-endian length, extracts the data field and checks the
trailing `0x0D`.  The packet type value is the type byte with the client (high) bit
removed. -/
def parseFrame (fb : Bytes) : Except String ParsedFrame :=
  if fb = [] then .error "Empty frame data"
  else if fb.length < MIN_FRAME_SIZE then .error "Frame too short"
  else
    let sync := fb.getD 0 0
    if sync ≠ SYNC_BYTE then .error "Invalid sync byte"
    else
      let crc := fromBE2 (fb.getD 1 0) (fb.getD 2 0)
      let len := fromBE2 (fb.getD 3 0) (fb.getD 4 0)
      if len < 3 then .error "Invalid length field"
      else
        let txSeq := fb.getD 5 0
        let rxSeq := fb.getD 6 0
        let typeField := fb.getD 7 0
        let packetTypeValue := typeField % 128
        let dataLength := len - 3
        let expectedFrameSize := 8 + dataLength + 1
        if fb.length < expectedFrameSize then .error "Frame size mismatch"
        else
          let data := (fb.drop 8).take dataLength
          let msgEnd := fb.getD (8 + dataLength) 0
          if msgEnd ≠ MSG_END_BYTE then .error "Invalid msg_end byte"
          else .ok { sync := sync, crc := crc, length := len, txSeq := txSeq,
                     rxSeq := rxSeq, typeField := typeField,
                     packetTypeValue := packetTypeValue,
                     clientPacket := 128 ≤ typeField % 256,
                     data := data, dataLength := dataLength, frameSize := fb.length }

/-! ### `fdo_detector.py` — class `FdoDetector` -/

/-- Result of `FdoDetector.detect_fdo_in_p3_frame` (the fields the claims are about). -/
structure DetectionResult where
  success : Bool
  fdoDetected : Bool
  p3FrameValid : Bool
  errorMsg : Option String
  fdoToken : Option PyStr
  fdoStreamId : Option Nat
  fdoHeaderSize : Option Nat
  fdoSize : Option Nat
  fdoData : Option Bytes
deriving Repr, DecidableEq

/-- The all-failure default `result` dictionary of `detect_fdo_in_p3_frame`. -/
def emptyDetection : DetectionResult :=
  { success := false, fdoDetected := false, p3FrameValid := false, errorMsg := none,
    fdoToken := none, fdoStreamId := none, fdoHeaderSize := none, fdoSize := none,
    fdoData := none }

/-- `FdoDetector.detect_fdo_in_p3_frame(frame_bytes)`: parse the P3 frame; only DATA
packets (type value 0x20) with non-empty payload are handed to
`parse_packet_header`; a successful header parse means FDO detected. -/
def detectFdoInP3Frame (fb : Bytes) : DetectionResult :=
  match parseFrame fb with
  | .error e => { emptyDetection with errorMsg := some e }
  | .ok f =>
    if f.packetTypeValue ≠ 0x20 then
      { emptyDetection with success := true, p3FrameValid := true,
                            errorMsg := some "Not a DATA packet" }
    else if f.data = [] then
      { emptyDetection with success := true, p3FrameValid := true,
                            errorMsg := some "No payload data in P3 frame" }
    else
      match parsePacketHeader f.data with
      | .ok hd =>
        { success := true, fdoDetected := true, p3FrameValid := true, errorMsg := none,
          fdoToken := some hd.token, fdoStreamId := some hd.streamId,
          fdoHeaderSize := some hd.headerSize, fdoSize := some hd.dataSize,
          fdoData := some hd.data }
      | .error e =>
        { emptyDetection with success := true, p3FrameValid := true,
                              errorMsg := some e }

/-! ### Python string helpers used by `fdo_manual_compiler.py` -/

/-- Characters stripped by Python `str.strip()`. -/
def pyIsSpace (c : Char) : Bool :=
  c = ' ' || c = '\t' || c = '\n' || c = '\x0d' || c = '\x0b' || c = '\x0c'

/-- Python `str.strip()`. -/
def pyStrip (s : PyStr) : PyStr :=
  ((s.dropWhile pyIsSpace).reverse.dropWhile pyIsSpace).reverse

/-- Python `str.lower()` restricted to ASCII, which is all the compiler feeds it. -/
def pyLowerChar (c : Char) : Char :=
  if 'A' ≤ c ∧ c ≤ 'Z' then Char.ofNat (c.toNat + 32) else c

/-- Lower-case an entire string. -/
def pyLower (s : PyStr) : PyStr := s.map pyLowerChar

/-- Lower-case hex digit test, the character class `[0-9a-f]` after `lower()`. -/
def isHexLowerDigit (c : Char) : Bool :=
  ('0' ≤ c && c ≤ '9') || ('a' ≤ c && c ≤ 'f')

/-- Case-insensitive hex digit test, `[0-9a-f]` under `re.IGNORECASE`. -/
def isHexDigitCI (c : Char) : Bool :=
  ('0' ≤ c && c ≤ '9') || ('a' ≤ c && c ≤ 'f') || ('A' ≤ c && c ≤ 'F')

/-- Numeric value of a hex digit character. -/
def hexDigitVal (c : Char) : Nat :=
  if '0' ≤ c ∧ c ≤ '9' then c.toNat - '0'.toNat
  else if 'a' ≤ c ∧ c ≤ 'f' then c.toNat - 'a'.toNat + 10
  else if 'A' ≤ c ∧ c ≤ 'F' then c.toNat - 'A'.toNat + 10
  else 0

/-- Value of a big-endian string of hex digits. -/
def hexStrVal (s : PyStr) : Nat :=
  s.foldl (fun acc c => acc * 16 + hexDigitVal c) 0

/-- `re.search(r"<([^>]+)>", line)` followed by `.group(1)`: find the leftmost
position from which a `<`, one or more non-`>` characters, and a `>` match, and
return the captured content. -/
def extractAngleContent : PyStr → Option PyStr
  | [] => none
  | c :: rest =>
    if c = '<' then
      let content := rest.takeWhile (· ≠ '>')
      if content.length ≠ 0 ∧ (rest.drop content.length).head? = some '>' then
        some content
      else extractAngleContent rest
    else extractAngleContent rest

/-- Whether a string contains a hex digit immediately followed by `x`
(case-insensitive), the `[0-9a-f]x` core of the format regex. -/
def containsHexX : PyStr → Bool
  | a :: b :: rest =>
    (isHexDigitCI a && (b = 'x' || b = 'X')) || containsHexX (b :: rest)
  | _ => false

/-- `re.search(r"<[^>]*[0-9a-f]x[^>]*>", line, re.IGNORECASE)` as a Boolean: some
angle-bracket window whose content (free of `>`) contains a hex digit followed by
`x`. -/
def reSearchHexPairFormat : PyStr → Bool
  | [] => false
  | c :: rest =>
    if c = '<' then
      (let content := rest.takeWhile (· ≠ '>')
       ((rest.drop content.length).head? = some '>' && containsHexX content)) ||
        reSearchHexPairFormat rest
    else reSearchHexPairFormat rest

/-! ### `fdo_manual_compiler.py` — class `FdoManualCompiler` -/

/-- The three atom names handled by the manual compiler. -/
def MANUAL_ATOM_NAMES : List PyStr :=
  [ ['i','d','b','_','a','p','p','e','n','d','_','d','a','t','a'],
    ['d','o','d','_','d','a','t','a'],
    ['m','a','n','_','a','p','p','e','n','d','_','d','a','t','a'] ]

/-- `FdoManualCompiler.FLAGS` (0x0B). -/
def MANUAL_FLAGS : Nat := 0x0B

/-- `FdoManualCompiler.FORMAT_MARKER` (0x80). -/
def MANUAL_FORMAT_MARKER : Nat := 0x80

/-- All three supported atoms share opcode 0x05 (`OPCODE_IDB_APPEND_DATA` etc.). -/
def MANUAL_OPCODE : Nat := 0x05

/-- `FdoManualCompiler.MAX_PAYLOAD_LENGTH` (255). -/
def MAX_PAYLOAD_LENGTH : Nat := 255

/-- One item of `_extract_hex_pairs`: strip, lower-case, require a trailing `x` and a
1-2 character hex prefix; other items are silently skipped by the source loop.  The
source stores the normalized pair (`zfill(2).upper()`) and later converts it with
`int(pair, 16)`; we store the numeric value directly, which composes those two
steps. -/
def parseHexPairItem (item : PyStr) : Option Nat :=
  let ic := pyLower (pyStrip item)
  match ic.getLast? with
  | some 'x' =>
    let hv := ic.dropLast
    if (hv.length = 1 ∨ hv.length = 2) ∧ hv.all isHexLowerDigit then
      some (hexStrVal hv)
    else none
  | _ => none

/-- `FdoManualCompiler._extract_hex_pairs(line)`: take the first `<...>` group, split
it on commas, and keep the items that parse as hex pairs; `None` when nothing
survives. -/
def extractHexPairs (line : PyStr) : Option (List Nat) :=
  match extractAngleContent line with
  | none => none
  | some content =>
    let pairs := (content.splitOn ',').filterMap parseHexPairItem
    if pairs = [] then none else some pairs

/-- `FdoManualCompiler.can_compile_manually(line)`: supported atom name, hex-pair
format regex hit, a non-empty extraction, and at most 255 extracted pairs. -/
def canCompileManually (line : PyStr) : Bool :=
  let lc := pyStrip line
  (MANUAL_ATOM_NAMES.any (fun a => a.isPrefixOf lc)) &&
  reSearchHexPairFormat lc &&
  (match extractHexPairs lc with
   | none => false
   | some pairs => decide (pairs.length ≤ MAX_PAYLOAD_LENGTH))

/-- `FdoManualCompiler._get_atom_type(line)`: `idb_append_data`, `dod_data` or
`man_append_data` by prefix of the stripped line. -/
def getAtomType (line : PyStr) : Option PyStr :=
  let lc := pyStrip line
  MANUAL_ATOM_NAMES.find? (fun a => a.isPrefixOf lc)

/-- `FdoManualCompiler._compile_hex_pairs(atom_type, hex_pairs)`: emit
`opcode ‖ 0x0B ‖ 0x80 ‖ length ‖ payload`. -/
def compileHexPairs (pairs : List Nat) : Except String Bytes :=
  if pairs.length > MAX_PAYLOAD_LENGTH then .error "Payload too long"
  else .ok ([MANUAL_OPCODE, MANUAL_FLAGS, MANUAL_FORMAT_MARKER, pairs.length] ++ pairs)

/-- `FdoManualCompiler.compile_line(line)`: gate on `can_compile_manually`, re-derive
atom type and pairs, and emit the binary; any failure yields `None` (worker
fallback). -/
def compileLine (line : PyStr) : Option Bytes :=
  if ¬ canCompileManually line then none
  else
    match getAtomType line with
    | none => none
    | some _ =>
      match extractHexPairs line with
      | none => none
      | some pairs =>
        match compileHexPairs pairs with
        | .ok b => some b
        | .error _ => none

/-! ### `fdo_chunker.py` — class `FdoChunker`

`process_fdo_script` first parses the source into atom units and then, per unit,
either slices a `raw_data` hex literal into prefixed frames or compiles the unit's
text through the manual compiler / worker daemon (`_compile_unit`).  The daemon is an
external process, so the chunker is modelled as a function of the per-unit outcome:
a `raw` unit carries the hex-decoded literal, an `atom` unit carries the compiled
bytes returned for it. -/

/-- One parsed atom unit together with the externally produced bytes the chunker
loop consumes for it. -/
inductive CompiledUnit
  | raw (rawBinary : Bytes)
  | atom (bin : Bytes)
deriving Repr, DecidableEq

/-- One `chunk_info` entry: `{size, is_continuation, sequence_index}`. -/
structure ChunkMeta where
  size : Nat
  isContinuation : Bool
  sequenceIndex : Nat
deriving Repr, DecidableEq

/-- The documented result dictionary `{chunks, chunk_info}`. -/
structure ChunkResult where
  chunks : List Bytes
  chunkInfo : List ChunkMeta
deriving Repr, DecidableEq

/-- `process_fdo_script` returns either a bare Python list (the `return []` branch at
line 73) or the documented dict shape — the two are distinct runtime values. -/
inductive ChunkerReturn
  | pyList (xs : List Bytes)
  | pyDict (res : ChunkResult)
deriving Repr, DecidableEq

/-- Sequential effectful map over a list in the `Except` monad (a Python loop whose
body may raise), written out recursively. -/
def exceptMapList (f : α → Except ε β) : List α → Except ε (List β)
  | [] => .ok []
  | a :: l =>
    match f a with
    | .error e => .error e
    | .ok b =>
      match exceptMapList f l with
      | .error e => .error e
      | .ok bs => .ok (b :: bs)

/-- Sequential effectful fold over a list in the `Except` monad (a Python loop over
mutable state whose body may raise), written out recursively. -/
def exceptFoldList (f : σ → α → Except ε σ) : σ → List α → Except ε σ
  | s, [] => .ok s
  | s, a :: l =>
    match f s a with
    | .error e => .error e
    | .ok s' => exceptFoldList f s' l

/-- The slicing loop of `_compile_raw_data_to_chunks`: cut the decoded literal into
chunks of at most `maxData` bytes.  The caller guarantees `maxData > 0`; the extra
guard only makes the recursion total. -/
def rawSlices (maxData : Nat) (rawBinary : Bytes) : List Bytes :=
  if h : rawBinary = [] ∨ maxData = 0 then []
  else rawBinary.take maxData :: rawSlices maxData (rawBinary.drop maxData)
termination_by rawBinary.length
decreasing_by
  simp only [List.length_drop]
  rw [not_or] at h
  have hlen : 0 < rawBinary.length := List.length_pos.mpr h.1
  omega

/-- `FdoChunker._compile_raw_data_to_chunks(unit, stream_id, token)` after the hex
literal has been extracted and decoded: each `≤ max_data` chunk is prefixed with
`00 05 76` and built into its own packet (`MAX_PAYLOAD = 128`). -/
def compileRawDataToChunks (rawBinary : Bytes) (streamId : Nat) (token : PyStr) :
    Except String (List Bytes) :=
  match getHeaderSize token with
  | .error e => .error e
  | .ok header =>
    if 128 ≤ header + 3 then .error "Token header too large for raw_data frames"
    else
      let maxData := 128 - header - 3
      exceptMapList
        (fun chunk => buildPacket ([0x00, 0x05, 0x76] ++ chunk) streamId token)
        (rawSlices maxData rawBinary)

/-- The chunker loop state: the accumulation buffer `current_packet_data`, the emitted
`packets` and `chunk_info`, and the `in_segmented_sequence` flag. -/
structure ChunkState where
  cur : Bytes
  packets : List Bytes
  info : List ChunkMeta
  inSeg : Bool
deriving Repr, DecidableEq

/-- The repeated flush block of `process_fdo_script`: if `current_packet_data` is
non-empty, build it into a packet whose `is_continuation` is the current
`in_segmented_sequence` flag. -/
def flushCur (streamId : Nat) (token : PyStr) (st : ChunkState) :
    Except String ChunkState :=
  if st.cur = [] then .ok st
  else
    match buildPacket st.cur streamId token with
    | .error e => .error e
    | .ok p =>
      .ok { cur := [], packets := st.packets ++ [p],
            info := st.info ++ [⟨p.length, st.inSeg, st.packets.length⟩],
            inSeg := st.inSeg }

/-- The body of the `for i, unit in enumerate(atom_units)` loop of
`process_fdo_script`. -/
def processUnit (streamId : Nat) (token : PyStr) (cap : Nat) (st : ChunkState) :
    CompiledUnit → Except String ChunkState
  | .raw rawBinary =>
    match flushCur streamId token st with
    | .error e => .error e
    | .ok st1 =>
      match compileRawDataToChunks rawBinary streamId token with
      | .error e => .error e
      | .ok rawPackets =>
        .ok (rawPackets.foldl
          (fun s p => { s with packets := s.packets ++ [p],
                               info := s.info ++ [⟨p.length, false, s.packets.length⟩] })
          st1)
  | .atom bin =>
    let segs := segmentDataIfNeeded bin
    if 1 < segs.length then
      match flushCur streamId token st with
      | .error e => .error e
      | .ok stf =>
        let emitSeg := fun (s : ChunkState) (js : Nat × Bytes) =>
          match buildPacket js.2 streamId token with
          | .error e => .error e
          | .ok p =>
            .ok { s with packets := s.packets ++ [p],
                         info := s.info ++
                           [⟨p.length, decide (0 < js.1) || stf.inSeg, s.packets.length⟩] }
        match exceptFoldList emitSeg stf segs.enum with
        | .error e => .error e
        | .ok st' => .ok { st' with inSeg := true }
    else
      let seg := segs.headI
      match (if cap < st.cur.length + seg.length then flushCur streamId token st
             else .ok st) with
      | .error e => .error e
      | .ok st1 => .ok { st1 with cur := st1.cur ++ seg }

/-- `FdoChunker.process_fdo_script(fdo_script, stream_id, token)` on the parsed and
compiled atom units: returns the bare `[]` when no units were parsed, otherwise runs
the packet-assembly loop and returns the `{chunks, chunk_info}` dict. -/
def processFdoScript (units : List CompiledUnit) (streamId : Nat) (token : PyStr) :
    Except String ChunkerReturn :=
  if units = [] then .ok (.pyList [])
  else
    match getHeaderSize token with
    | .error e => .error e
    | .ok header =>
      if MAX_OUTBOUND_SIZE ≤ header then
        .error "Token header too large for any payload"
      else
        let cap := MAX_OUTBOUND_SIZE - header
        match exceptFoldList (processUnit streamId token cap) ⟨[], [], [], false⟩
            units with
        | .error e => .error e
        | .ok st =>
          match flushCur streamId token st with
          | .error e => .error e
          | .ok st2 => .ok (.pyDict ⟨st2.packets, st2.info⟩)

/-- The `chunk_result["chunks"]` subscription in `chunk_and_validate` (lines
448-450): subscripting a Python list with a string key raises `TypeError`; only the
dict shape supports it. -/
def subscriptChunkResult : ChunkerReturn → Except String (List Bytes × List ChunkMeta)
  | .pyList _ => .error "TypeError: list indices must be integers"
  | .pyDict r => .ok (r.chunks, r.chunkInfo)

/-- The caller-visible outcome of `chunk_and_validate` (the fields the claims are
about). -/
structure ChunkAndValidateResult where
  success : Bool
  errorMsg : Option String
  chunks : List Bytes
deriving Repr, DecidableEq

/-- `FdoChunker.chunk_and_validate(fdo_script, stream_id, token, validate_first)`
with `validate_first = False` (pre-validation only adds a daemon round trip): chunk,
then read `chunk_result["chunks"]` and `chunk_result["chunk_info"]`; any exception is
caught and reported as `success = False` with the error text. -/
def chunkAndValidate (units : List CompiledUnit) (streamId : Nat) (token : PyStr) :
    ChunkAndValidateResult :=
  match processFdoScript units streamId token with
  | .error e => { success := false, errorMsg := some e, chunks := [] }
  | .ok r =>
    match subscriptChunkResult r with
    | .error e => { success := false, errorMsg := some e, chunks := [] }
    | .ok (cs, _) => { success := true, errorMsg := none, chunks := cs }

/-! ### `jsonl_processor.py` — class `JsonlProcessor`

A JSONL line is modelled by the outcome of `_parse_single_line` on it: `invalid`
covers every `return None` path (blank line, JSON decode error, missing or empty
`fullHex`), and `frame ts fullHex` carries the timestamp produced by
`float(ts)`-with-0.0-fallback and the raw `fullHex` string.  JSON deserialization
itself is outside the claims. -/

/-- One JSONL input line, by its `_parse_single_line` outcome. -/
inductive JsonlLine
  | invalid
  | frame (ts : ℚ) (fullHex : PyStr)
deriving DecidableEq

/-- Python `str.upper()` restricted to ASCII. -/
def pyUpperChar (c : Char) : Char :=
  if 'a' ≤ c ∧ c ≤ 'z' then Char.ofNat (c.toNat - 32) else c

/-- Upper-case an entire string; `full_hex.upper()`. -/
def pyUpper (s : PyStr) : PyStr := s.map pyUpperChar

/-- `JsonlProcessor._parse_single_line`: `None` for invalid lines and for lines with
an empty `fullHex`; otherwise the timestamp and the uppercased hex. -/
def parseSingleLine : JsonlLine → Option (ℚ × PyStr)
  | .invalid => none
  | .frame ts fullHex => if fullHex = [] then none else some (ts, pyUpper fullHex)

/-- `bytes.fromhex` on a string without separators: pairs of hex digits; odd length
or a non-hex character fails. -/
def hexDecodePairs : PyStr → Option Bytes
  | [] => some []
  | [_] => none
  | a :: b :: rest =>
    if isHexDigitCI a && isHexDigitCI b then
      match hexDecodePairs rest with
      | none => none
      | some bs => some ((hexDigitVal a * 16 + hexDigitVal b) :: bs)
    else none

/-- An extracted FDO frame record (C6 output):
`{token, stream_id, data, original_frame_hex}`. -/
structure FdoRecord where
  token : PyStr
  streamId : Nat
  data : Bytes
  originalFrameHex : PyStr
deriving DecidableEq

/-- `JsonlProcessor._extract_fdo_from_single_frame(frame)`: reject odd-length hex,
decode, run the FDO detector, and on detection build the record. -/
def extractFdoFromSingleFrame (fullHex : PyStr) : Option FdoRecord :=
  match hexDecodePairs fullHex with
  | none => none
  | some fb =>
    let r := detectFdoInP3Frame fb
    if r.success && r.fdoDetected then
      match r.fdoToken, r.fdoStreamId, r.fdoData with
      | some t, some s, some d =>
        some { token := t, streamId := s, data := d, originalFrameHex := fullHex }
      | _, _, _ => none
    else none

/-- The string `"oldest_first"`. -/
def oldestFirstStr : PyStr :=
  ['o','l','d','e','s','t','_','f','i','r','s','t']

/-- The string `"newest_first"`. -/
def newestFirstStr : PyStr :=
  ['n','e','w','e','s','t','_','f','i','r','s','t']

/-- The transition-counting loop of `_determine_order_from_samples`: the number of
strictly increasing and the number of strictly decreasing adjacent timestamp pairs. -/
def countIncDec : List ℚ → Nat × Nat
  | a :: b :: rest =>
    let p := countIncDec (b :: rest)
    if a < b then (p.1 + 1, p.2)
    else if b < a then (p.1, p.2 + 1)
    else p
  | _ => (0, 0)

/-- `JsonlProcessor._determine_order_from_samples(lines)`: timestamps of the first
100 lines that parse; fewer than two default to `oldest_first`; otherwise
`oldest_first` exactly when strictly more increasing than decreasing transitions. -/
def determineOrderFromSamples (lines : List JsonlLine) : PyStr × Nat :=
  let samples := (lines.filterMap parseSingleLine).take 100
  let firstTimestamps := samples.map (·.1)
  if firstTimestamps.length < 2 then (oldestFirstStr, samples.length)
  else
    let c := countIncDec firstTimestamps
    if c.2 < c.1 then (oldestFirstStr, samples.length)
    else (newestFirstStr, samples.length)

/-- `JsonlProcessor.MAX_FRAMES_LIMIT` (10 million). -/
def MAX_FRAMES_LIMIT : Nat := 10000000

/-- The mutable state of `_stream_extract_fdo_data`: collected records, the frame and
FDO counters, the supported-token set (as a first-seen-ordered list), and the early
termination reason. -/
structure StreamState where
  parts : List FdoRecord
  framesProcessed : Nat
  fdoFramesFound : Nat
  supportedTokens : List PyStr
  earlyTermination : Option String
deriving DecidableEq

/-- `check_safety_limits` with the counter already incremented for the current line:
the frame-count cap is concrete; the wall-clock and resident-memory checks depend on
the environment and are passed in as the `externalCap` oracle. -/
def checkSafetyLimits (framesProcessed : Nat) (externalCap : Nat → Bool) :
    Option String :=
  if MAX_FRAMES_LIMIT ≤ framesProcessed then some "Frame limit exceeded"
  else if externalCap framesProcessed then some "Time or memory limit exceeded"
  else none

/-- The per-line loop of `_stream_extract_fdo_data` (both branches of the source run
this same body; only the final reversal differs): count the line, break on a safety
cap, then parse, extract, and append. -/
def streamLoop (externalCap : Nat → Bool) (st : StreamState) :
    List JsonlLine → StreamState
  | [] => st
  | line :: rest =>
    let processed := st.framesProcessed + 1
    match checkSafetyLimits processed externalCap with
    | some reason =>
      { st with framesProcessed := processed, earlyTermination := some reason }
    | none =>
      let st' := { st with framesProcessed := processed }
      let st'' :=
        match parseSingleLine line with
        | none => st'
        | some pf =>
          match extractFdoFromSingleFrame pf.2 with
          | none => st'
          | some r =>
            { st' with
                parts := st'.parts ++ [r],
                fdoFramesFound := st'.fdoFramesFound + 1,
                supportedTokens :=
                  if r.token ∈ st'.supportedTokens then st'.supportedTokens
                  else st'.supportedTokens ++ [r.token] }
      streamLoop externalCap st'' rest

/-- `JsonlProcessor._stream_extract_fdo_data(lines, chronological_order, ...)`: run
the loop; for `newest_first` the collected list is reversed before returning. -/
def streamExtractFdoData (lines : List JsonlLine) (order : PyStr)
    (externalCap : Nat → Bool) : StreamState :=
  let fin := streamLoop externalCap ⟨[], 0, 0, [], none⟩ lines
  if order = newestFirstStr then { fin with parts := fin.parts.reverse } else fin

/-- The two passes of `JsonlProcessor.stream_process_file`: order detection over the
leading samples, then extraction in that order. -/
def streamProcessFile (lines : List JsonlLine) (externalCap : Nat → Bool) :
    PyStr × StreamState :=
  let order := (determineOrderFromSamples lines).1
  (order, streamExtractFdoData lines order externalCap)

/-! ### `fdo_daemon_pool_manager.py` — class `FdoDaemonPoolManager`

Wall-clock instants are modelled in milliseconds as naturals (`time.time()` floats in
the source); external effects — the worker health probe, the restart outcome — are
oracle arguments.  An instance's `manager` being present is the Boolean
`hasManager`. -/

/-- The string `"healthy"`. -/
def healthyStr : PyStr := ['h','e','a','l','t','h','y']

/-- The string `"unhealthy"`. -/
def unhealthyStr : PyStr := ['u','n','h','e','a','l','t','h','y']

/-- The string `"crashed"`. -/
def crashedStr : PyStr := ['c','r','a','s','h','e','d']

/-- The string `"restarting"`. -/
def restartingStr : PyStr := ['r','e','s','t','a','r','t','i','n','g']

/-- `DaemonInstance`: one pooled worker's mutable record. -/
structure DaemonInstance where
  state : PyStr
  lastHealthCheck : Nat
  circuitBreakerOpen : Bool
  restartCount : Nat
  consecutiveFailures : Nat
  totalRequests : Nat
  failedRequests : Nat
  isProcessing : Bool
  requestStartedAt : Option Nat
  hasManager : Bool
deriving DecidableEq, Inhabited

/-- The pool's shared state: the instance table and the round-robin cursor. -/
structure PoolState where
  instances : List DaemonInstance
  currentIndex : Nat
deriving DecidableEq

/-- In-place update of the `i`-th list element, the Python attribute assignment on
`self.instances[i]`. -/
def listModify (f : α → α) : Nat → List α → List α
  | _, [] => []
  | 0, a :: l => f a :: l
  | n + 1, a :: l => a :: listModify f n l

/-- Python truthiness of `request_started_at`: `None` and `0.0` are falsy. -/
def pyTruthyTime : Option Nat → Bool
  | none => false
  | some t => t ≠ 0

/-- The round-robin pass of `get_healthy_instance`: up to `len(instances)` probes
from the cursor; a hit must be simultaneously `healthy`, circuit closed, and idle,
and is immediately marked busy and stamped. -/
def ghiLoop (now : Nat) : Nat → PoolState → Option Nat × PoolState
  | 0, p => (none, p)
  | n + 1, p =>
    let i := p.currentIndex
    let inst := (p.instances.get? i).getD default
    let p' := { p with currentIndex := (i + 1) % p.instances.length }
    if inst.state = healthyStr ∧ inst.circuitBreakerOpen = false ∧
        inst.isProcessing = false then
      let claim := fun (x : DaemonInstance) =>
        { x with isProcessing := true, requestStartedAt := some now }
      (some i, { p' with instances := listModify claim i p'.instances })
    else ghiLoop now n p'

/-- `FdoDaemonPoolManager.get_healthy_instance()`: none on an empty pool, otherwise
one round-robin pass; returns the claimed instance's index. -/
def getHealthyInstance (now : Nat) (p : PoolState) : Option Nat × PoolState :=
  if p.instances = [] then (none, p)
  else ghiLoop now p.instances.length p

/-- The retry loop behind `getHealthyInstanceAsync`, recursing on a fuel bound (the
loop advances `now` by at least one millisecond per round, so `deadline - now` rounds
always suffice; the fuel-exhausted case is unreachable from the wrapper).  Each round
tries `get_healthy_instance`; while nothing is available and one more backoff sleep
still ends by the deadline, it sleeps and retries.  Returns the acquired index, the
pool, and the instant at which it returned. -/
def ghiaLoop (deadline backoff : Nat) : Nat → PoolState → Nat →
    Option Nat × PoolState × Nat
  | fuel, p, now =>
    match getHealthyInstance now p with
    | (some i, p') => (some i, p', now)
    | (none, p') =>
      match fuel with
      | 0 => (none, p', now)
      | fuel + 1 =>
        if 0 < backoff ∧ now + backoff ≤ deadline then
          ghiaLoop deadline backoff fuel p' (now + backoff)
        else (none, p', now)

/-- Modelled from the spec: `get_healthy_instance_async(timeout)` is called by the
pool client (`fdo_daemon_pool_client.py` line 139) but is defined nowhere in the
repository; per the spec it "retries on a small backoff until the deadline". -/
def getHealthyInstanceAsync (p : PoolState) (now deadline backoff : Nat) :
    Option Nat × PoolState × Nat :=
  ghiaLoop deadline backoff (deadline - now) p now

/-- `FdoDaemonPoolManager.restart_instance(instance)`: refuse past the attempt cap;
otherwise mark `restarting`, count the attempt, and either come back `healthy` with
failure counters reset and circuit closed, or end `crashed`.  The stop/sleep/start of
the real child process is summarized by the `restartOk` oracle. -/
def restartInstance (maxRestartAttempts : Nat) (restartOk : Bool)
    (inst : DaemonInstance) : DaemonInstance :=
  if maxRestartAttempts ≤ inst.restartCount then inst
  else
    let inst' := { inst with state := restartingStr,
                             restartCount := inst.restartCount + 1 }
    if restartOk then
      { inst' with state := healthyStr, consecutiveFailures := 0,
                   circuitBreakerOpen := false }
    else { inst' with state := crashedStr }

/-- The stuck-request marking inside `_perform_health_checks` (lines 452-456): clear
the processing flag and start stamp, mark `unhealthy`, count the failure. -/
def markStuck (inst : DaemonInstance) : DaemonInstance :=
  { inst with isProcessing := false, requestStartedAt := none,
              state := unhealthyStr,
              consecutiveFailures := inst.consecutiveFailures + 1 }

/-- The 30-second per-request timeout (`request_timeout = 30.0`), in milliseconds. -/
def REQUEST_TIMEOUT_MS : Nat := 30000

/-- The body of the `for instance in self.instances` loop of
`_perform_health_checks`: skip instances without a manager; handle stuck requests
(timeout marking plus restart under the attempt cap); otherwise run the health probe
— healthy refreshes the stamp and closes an open circuit, an unhealthy report marks
`unhealthy`, and a probe exception marks `crashed` and attempts a restart. -/
def healthCheckInstance (maxRestartAttempts now : Nat) (healthProbe : Option Bool)
    (restartOk : Bool) (inst : DaemonInstance) : DaemonInstance :=
  if inst.hasManager = false then inst
  else if inst.isProcessing = true ∧ pyTruthyTime inst.requestStartedAt = true ∧
      REQUEST_TIMEOUT_MS < now - inst.requestStartedAt.getD 0 then
    let i1 := markStuck inst
    if i1.restartCount < maxRestartAttempts then
      restartInstance maxRestartAttempts restartOk i1
    else i1
  else
    match healthProbe with
    | some true =>
      let i1 := { inst with state := healthyStr, lastHealthCheck := now }
      if i1.circuitBreakerOpen then
        { i1 with circuitBreakerOpen := false, consecutiveFailures := 0 }
      else i1
    | some false => { inst with state := unhealthyStr }
    | none =>
      let i1 := { inst with state := crashedStr }
      if i1.restartCount < maxRestartAttempts then
        restartInstance maxRestartAttempts restartOk i1
      else i1

/-- `FdoDaemonPoolManager._perform_health_checks()`: the per-instance step applied
across the table (each iteration touches only its own instance); the probe and
restart oracles are indexed by instance position. -/
def performHealthChecks (maxRestartAttempts now : Nat)
    (healthProbe : Nat → Option Bool) (restartOk : Nat → Bool)
    (p : PoolState) : PoolState :=
  let step := fun (e : Nat × DaemonInstance) =>
    healthCheckInstance maxRestartAttempts now (healthProbe e.1) (restartOk e.1) e.2
  { p with instances := p.instances.enum.map step }

/-! ### `fdo_daemon_pool_client.py` — class `FdoDaemonPoolClient`

`_execute_with_retry` drives acquisitions and RPC attempts.  The RPC outcome is the
`opOutcome` oracle, indexed by how many operations have already been executed; the
return value of a successful operation is irrelevant to the claims and elided.  Time
advances by the (spec-modelled) acquisition waits and by the exponential backoff
sleeps `0.1 · 2^attempts` seconds. -/

/-- The two failure modes of `_execute_with_retry`. -/
inductive ClientError
  | noHealthyInstances (attemptedCount : Nat)
  | allRetriesFailed (attempts : Nat) (attemptedCount : Nat)
deriving DecidableEq

/-- The acquisition timeout of the client: `timeout=5.0` seconds, in milliseconds. -/
def ACQUIRE_TIMEOUT_MS : Nat := 5000

/-- The `while attempts < self.max_retries` loop of `_execute_with_retry`.  Faithful
to the source, the skip path for an already-attempted instance (`attempts += 1;
continue`, lines 148-150) does not touch the instance's flags: the `finally` that
clears `is_processing` wraps only the operation itself. -/
def executeWithRetryLoop (maxRetries threshold asyncBackoff : Nat)
    (opOutcome : Nat → Bool) :
    Nat → Nat → Nat → List Nat → PoolState → Nat →
      Except ClientError Unit × PoolState × Nat
  | 0, attempts, _opCount, attempted, p, now =>
    (.error (.allRetriesFailed attempts attempted.length), p, now)
  | fuel + 1, attempts, opCount, attempted, p, now =>
    match getHealthyInstanceAsync p now (now + ACQUIRE_TIMEOUT_MS) asyncBackoff with
    | (none, p', now') => (.error (.noHealthyInstances attempted.length), p', now')
    | (some i, p', now') =>
      if i ∈ attempted then
        executeWithRetryLoop maxRetries threshold asyncBackoff opOutcome
          fuel (attempts + 1) opCount attempted p' now'
      else
        let attempted' := attempted ++ [i]
        let finallyClear := fun (x : DaemonInstance) =>
          { x with isProcessing := false, requestStartedAt := none }
        if opOutcome opCount then
          let onSuccess := fun (x : DaemonInstance) =>
            { x with totalRequests := x.totalRequests + 1,
                     consecutiveFailures := 0, circuitBreakerOpen := false }
          let p2 := { p' with instances := listModify onSuccess i p'.instances }
          let p3 := { p2 with instances := listModify finallyClear i p2.instances }
          (.ok (), p3, now')
        else
          let onFailure := fun (x : DaemonInstance) =>
            let x1 := { x with totalRequests := x.totalRequests + 1,
                               failedRequests := x.failedRequests + 1,
                               consecutiveFailures := x.consecutiveFailures + 1 }
            if threshold ≤ x1.consecutiveFailures then
              { x1 with circuitBreakerOpen := true, state := unhealthyStr }
            else x1
          let p2 := { p' with instances := listModify onFailure i p'.instances }
          let attempts' := attempts + 1
          let now2 := if attempts' < maxRetries then now' + 100 * 2 ^ attempts'
                      else now'
          let p3 := { p2 with instances := listModify finallyClear i p2.instances }
          executeWithRetryLoop maxRetries threshold asyncBackoff opOutcome
            fuel attempts' (opCount + 1) attempted' p3 now2

/-- `FdoDaemonPoolClient._execute_with_retry(operation)` from a fresh call:
`attempts = 0`, empty attempted set.  The loop guard `while attempts <
self.max_retries` is realized by the fuel argument, which starts at `maxRetries` and
tracks `maxRetries - attempts` exactly (both paths that loop increment `attempts` by
one), so fuel exhaustion is precisely `attempts = maxRetries`. -/
def executeWithRetry (maxRetries threshold asyncBackoff : Nat)
    (opOutcome : Nat → Bool) (p : PoolState) (now : Nat) :
    Except ClientError Unit × PoolState × Nat :=
  executeWithRetryLoop maxRetries threshold asyncBackoff opOutcome maxRetries 0 0 []
    p now

/-! ### Auxiliary definitions used by the verification -/

/-- Every emitted packet was built by `build_packet` from at most 255 bytes of
payload data. -/
def PacketShape (streamId : Nat) (token : PyStr) (p : Bytes) : Prop :=
  ∃ d, d.length ≤ 255 ∧ buildPacket d streamId token = .ok p

/-- The FDO record a single JSONL line contributes, if any: parse the line, then
run detection on its (uppercased) hex. -/
def lineFdo (l : JsonlLine) : Option FdoRecord :=
  (parseSingleLine l).bind (fun pf => extractFdoFromSingleFrame pf.2)

/-- A concrete stuck worker instance, processing since t = 1000 ms. -/
def stuckInst : DaemonInstance :=
  { state := healthyStr, lastHealthCheck := 0, circuitBreakerOpen := false,
    restartCount := 0, consecutiveFailures := 0, totalRequests := 3,
    failedRequests := 1, isProcessing := true, requestStartedAt := some 1000,
    hasManager := true }

/-- A concrete healthy idle worker instance. -/
def idleInst : DaemonInstance :=
  { state := healthyStr, lastHealthCheck := 0, circuitBreakerOpen := false,
    restartCount := 0, consecutiveFailures := 0, totalRequests := 0,
    failedRequests := 0, isProcessing := false, requestStartedAt := none,
    hasManager := true }

/-- A concrete worker instance whose circuit breaker is open. -/
def openCircuitInst : DaemonInstance :=
  { state := healthyStr, lastHealthCheck := 0, circuitBreakerOpen := true,
    restartCount := 0, consecutiveFailures := 3, totalRequests := 4,
    failedRequests := 4, isProcessing := false, requestStartedAt := none,
    hasManager := true }

/-! ## Lemmas about segmentation -/

theorem segmentRest_join (l : Bytes) :
    ((segmentRest l).map (fun s => s.drop 1)).flatten = l := by
  by_cases h : l = []
  · rw [segmentRest]
    simp [h]
  · have ih := segmentRest_join (l.drop (MAX_SEGMENT_SIZE - 1))
    rw [segmentRest]
    simp only [dif_neg h, List.map_cons, List.flatten_cons, List.drop_succ_cons,
      List.drop_zero]
    rw [ih]
    exact List.take_append_drop _ l
termination_by l.length
decreasing_by
  simp only [List.length_drop, MAX_SEGMENT_SIZE]
  have := List.length_pos.mpr h
  omega

theorem segmentRest_shape (l : Bytes) :
    ∀ s ∈ segmentRest l, ∃ k t, s = (CONTINUATION_MARKER ||| k) :: t ∧
      t.length = k ∧ 1 ≤ k ∧ k ≤ MAX_SEGMENT_SIZE - 1 := by
  by_cases h : l = []
  · rw [segmentRest]
    simp [h]
  · have ih := segmentRest_shape (l.drop (MAX_SEGMENT_SIZE - 1))
    rw [segmentRest]
    simp only [dif_neg h, List.mem_cons]
    rintro s (rfl | hs)
    · refine ⟨(l.take (MAX_SEGMENT_SIZE - 1)).length, l.take (MAX_SEGMENT_SIZE - 1),
        rfl, rfl, ?_, ?_⟩
      · simp only [List.length_take]
        have := List.length_pos.mpr h
        simp only [MAX_SEGMENT_SIZE]
        omega
      · simp only [List.length_take]
        omega
    · exact ih s hs
termination_by l.length
decreasing_by
  simp only [List.length_drop, MAX_SEGMENT_SIZE]
  have := List.length_pos.mpr h
  omega

theorem segmentRest_length_le (l : Bytes) :
    ∀ s ∈ segmentRest l, s.length ≤ MAX_SEGMENT_SIZE := by
  intro s hs
  obtain ⟨k, t, rfl, htk, _, hk⟩ := segmentRest_shape l s hs
  simp only [List.length_cons, htk, MAX_SEGMENT_SIZE] at *
  omega

theorem segmentDataIfNeeded_small {data : Bytes} (h : data.length ≤ MAX_SEGMENT_SIZE) :
    segmentDataIfNeeded data = [data] := by
  simp [segmentDataIfNeeded, h]

theorem segmentDataIfNeeded_big {data : Bytes} (h : MAX_SEGMENT_SIZE < data.length) :
    segmentDataIfNeeded data =
      data.take MAX_SEGMENT_SIZE :: segmentRest (data.drop MAX_SEGMENT_SIZE) := by
  simp [segmentDataIfNeeded, Nat.not_le.mpr h]

theorem segmentDataIfNeeded_length_le (data : Bytes) :
    ∀ s ∈ segmentDataIfNeeded data, s.length ≤ MAX_SEGMENT_SIZE := by
  intro s hs
  by_cases h : data.length ≤ MAX_SEGMENT_SIZE
  · rw [segmentDataIfNeeded_small h] at hs
    simp only [List.mem_singleton] at hs
    exact hs ▸ h
  · rw [segmentDataIfNeeded_big (Nat.not_le.mp h)] at hs
    simp only [List.mem_cons] at hs
    rcases hs with rfl | hs
    · simp [List.length_take]
    · exact segmentRest_length_le _ s hs

theorem segmentDataIfNeeded_ne_nil (data : Bytes) :
    segmentDataIfNeeded data ≠ [] := by
  by_cases h : data.length ≤ MAX_SEGMENT_SIZE
  · rw [segmentDataIfNeeded_small h]; simp
  · rw [segmentDataIfNeeded_big (Nat.not_le.mp h)]; simp

theorem segmentDataIfNeeded_single {data : Bytes}
    (h : (segmentDataIfNeeded data).length ≤ 1) :
    data.length ≤ MAX_SEGMENT_SIZE ∧ segmentDataIfNeeded data = [data] := by
  by_cases hlen : data.length ≤ MAX_SEGMENT_SIZE
  · exact ⟨hlen, segmentDataIfNeeded_small hlen⟩
  · exfalso
    have hbig := Nat.not_le.mp hlen
    rw [segmentDataIfNeeded_big hbig] at h
    have hne : data.drop MAX_SEGMENT_SIZE ≠ [] := by
      intro hcon
      have := congrArg List.length hcon
      simp only [List.length_drop, List.length_nil] at this
      omega
    rw [segmentRest] at h
    simp only [dif_neg hne, List.length_cons] at h
    omega

theorem segmentDataIfNeeded_join (data : Bytes) :
    (segmentDataIfNeeded data).headI ++
      ((segmentDataIfNeeded data).tail.map (fun s => s.drop 1)).flatten = data := by
  by_cases h : data.length ≤ MAX_SEGMENT_SIZE
  · rw [segmentDataIfNeeded_small h]
    simp
  · rw [segmentDataIfNeeded_big (Nat.not_le.mp h)]
    simp only [List.headI_cons, List.tail_cons]
    rw [segmentRest_join]
    exact List.take_append_drop _ data

/-! ## Lemmas about the token table and packet building -/

theorem tokenTable_wf :
    ∀ p ∈ TOKEN_STREAM_ID_SIZES,
      p.1.length = 2 ∧ p.1.all (fun c => c.toNat < 128) = true := by
  decide

theorem tokenWidth_props {t : PyStr} {w : Nat} (h : tokenWidth t = some w) :
    t.length = 2 ∧ encodeAscii t = .ok (t.map Char.toNat) ∧
      tokenTwoBytes (t.map Char.toNat) = t.map Char.toNat := by
  unfold tokenWidth at h
  cases hf : TOKEN_STREAM_ID_SIZES.find? (fun p => p.1 = t) with
  | none => rw [hf] at h; simp at h
  | some pr =>
    have hmem := List.mem_of_find?_eq_some hf
    have hpt : pr.1 = t := by
      have := List.find?_some hf
      exact of_decide_eq_true this
    obtain ⟨hlen, hascii⟩ := tokenTable_wf pr hmem
    rw [hpt] at hlen hascii
    refine ⟨hlen, ?_, ?_⟩
    · simp [encodeAscii, hascii]
    · have hml : (t.map Char.toNat).length = 2 := by simp [hlen]
      simp only [tokenTwoBytes]
      rw [List.take_of_length_le (le_of_eq hml), hml]
      simp

theorem buildPacket_ok {data : Bytes} {sid : Nat} {t : PyStr} {p : Bytes} {w : Nat}
    (hw : tokenWidth t = some w) (h : buildPacket data sid t = .ok p) :
    p = t.map Char.toNat ++ toLEBytes w sid ++ data := by
  obtain ⟨_, henc, httb⟩ := tokenWidth_props hw
  by_cases hs : sid > (1 <<< (w * 8)) - 1
  · simp [buildPacket, hw, if_pos hs] at h
  · simp only [buildPacket, hw, if_neg hs, henc, Except.ok.injEq] at h
    rw [← h, httb]

theorem toLEBytes_length (w n : Nat) : (toLEBytes w n).length = w := by
  induction w generalizing n with
  | zero => rfl
  | succ w ih => simp [toLEBytes, ih]

theorem buildPacket_length {data : Bytes} {sid : Nat} {t : PyStr} {p : Bytes} {w : Nat}
    (hw : tokenWidth t = some w) (h : buildPacket data sid t = .ok p) :
    p.length = 2 + w + data.length := by
  rw [buildPacket_ok hw h]
  have := (tokenWidth_props hw).1
  simp [toLEBytes_length, this]
  omega

/-! ## Lemmas about the effectful list combinators -/

theorem exceptMapList_mem {α β ε : Type} {f : α → Except ε β} :
    ∀ {l : List α} {ys : List β}, exceptMapList f l = .ok ys →
      ∀ y ∈ ys, ∃ x ∈ l, f x = .ok y := by
  intro l
  induction l with
  | nil =>
    intro ys h y hy
    simp only [exceptMapList, Except.ok.injEq] at h
    subst h
    simp at hy
  | cons a l ih =>
    intro ys h y hy
    cases hfa : f a with
    | error e => simp [exceptMapList, hfa] at h
    | ok b =>
      cases hrest : exceptMapList f l with
      | error e => simp [exceptMapList, hfa, hrest] at h
      | ok bs =>
        simp only [exceptMapList, hfa, hrest, Except.ok.injEq] at h
        subst h
        rcases List.mem_cons.mp hy with rfl | hy'
        · exact ⟨a, List.mem_cons_self a l, hfa⟩
        · obtain ⟨x, hx, hfx⟩ := ih hrest y hy'
          exact ⟨x, List.mem_cons_of_mem a hx, hfx⟩

theorem exceptFoldList_inv {α σ ε : Type} {P : σ → Prop} {f : σ → α → Except ε σ} :
    ∀ {l : List α} {s s' : σ},
      (∀ t a t', a ∈ l → P t → f t a = .ok t' → P t') →
      P s → exceptFoldList f s l = .ok s' → P s' := by
  intro l
  induction l with
  | nil =>
    intro s s' _ hP h
    simp only [exceptFoldList, Except.ok.injEq] at h
    exact h ▸ hP
  | cons a l ih =>
    intro s s' hstep hP h
    cases hfa : f s a with
    | error e => simp [exceptFoldList, hfa] at h
    | ok u =>
      simp only [exceptFoldList, hfa] at h
      exact ih (fun t b t' hb => hstep t b t' (List.mem_cons_of_mem a hb))
        (hstep s a u (List.mem_cons_self a l) hP hfa) h

/-! ## The chunker packet-shape invariant -/

theorem flushCur_inv {sid : Nat} {t : PyStr} {st st' : ChunkState}
    (h : flushCur sid t st = .ok st')
    (hpk : ∀ p ∈ st.packets, PacketShape sid t p) (hcur : st.cur.length ≤ 255) :
    (∀ p ∈ st'.packets, PacketShape sid t p) ∧ st'.cur = [] := by
  unfold flushCur at h
  by_cases hc : st.cur = []
  · rw [if_pos hc] at h
    simp only [Except.ok.injEq] at h
    subst h
    exact ⟨hpk, hc⟩
  · rw [if_neg hc] at h
    cases hb : buildPacket st.cur sid t with
    | error e => rw [hb] at h; simp at h
    | ok p =>
      rw [hb] at h
      simp only [Except.ok.injEq] at h
      subst h
      refine ⟨?_, rfl⟩
      intro q hq
      rcases List.mem_append.mp hq with hq' | hq'
      · exact hpk q hq'
      · rw [List.mem_singleton.mp hq']
        exact ⟨st.cur, hcur, hb⟩

theorem rawSlices_length_le (maxData : Nat) (raw : Bytes) :
    ∀ c ∈ rawSlices maxData raw, c.length ≤ maxData := by
  by_cases h : raw = [] ∨ maxData = 0
  · rw [rawSlices]
    simp [h]
  · have ih := rawSlices_length_le maxData (raw.drop maxData)
    rw [rawSlices]
    simp only [dif_neg h, List.mem_cons]
    rintro c (rfl | hc)
    · simp
    · exact ih c hc
termination_by raw.length
decreasing_by
  rw [not_or] at h
  simp only [List.length_drop]
  have := List.length_pos.mpr h.1
  omega

theorem compileRawDataToChunks_shape {raw : Bytes} {sid : Nat} {t : PyStr}
    {ps : List Bytes} (h : compileRawDataToChunks raw sid t = .ok ps) :
    ∀ p ∈ ps, PacketShape sid t p := by
  unfold compileRawDataToChunks at h
  cases hh : getHeaderSize t with
  | error e => rw [hh] at h; simp at h
  | ok header =>
    rw [hh] at h
    by_cases hg : 128 ≤ header + 3
    · simp only [if_pos hg] at h
      exact Except.noConfusion h
    · simp only [if_neg hg] at h
      intro p hp
      obtain ⟨chunk, hcm, hb⟩ := exceptMapList_mem h p hp
      have hcl := rawSlices_length_le _ raw chunk hcm
      refine ⟨[0x00, 0x05, 0x76] ++ chunk, ?_, hb⟩
      simp only [List.length_append, List.length_cons, List.length_nil]
      omega

theorem appendPackets_inv {sid : Nat} {t : PyStr} {ps : List Bytes}
    (hps : ∀ p ∈ ps, PacketShape sid t p) :
    ∀ st : ChunkState, (∀ p ∈ st.packets, PacketShape sid t p) →
      (∀ p ∈ (ps.foldl
          (fun s p => { s with packets := s.packets ++ [p],
                               info := s.info ++ [⟨p.length, false, s.packets.length⟩] })
          st).packets, PacketShape sid t p) ∧
      (ps.foldl
          (fun s p => { s with packets := s.packets ++ [p],
                               info := s.info ++ [⟨p.length, false, s.packets.length⟩] })
          st).cur = st.cur := by
  induction ps with
  | nil => intro st hst; exact ⟨hst, rfl⟩
  | cons q qs ih =>
    intro st hst
    simp only [List.foldl_cons]
    have hq := hps q (List.mem_cons_self q qs)
    have hqs := fun p hp => hps p (List.mem_cons_of_mem q hp)
    have := ih hqs { st with packets := st.packets ++ [q],
                             info := st.info ++ [⟨q.length, false, st.packets.length⟩] }
      (by
        intro p hp
        rcases List.mem_append.mp hp with hp' | hp'
        · exact hst p hp'
        · rw [List.mem_singleton.mp hp']; exact hq)
    exact this

theorem processUnit_inv {sid : Nat} {t : PyStr} {cap : Nat} {st st' : ChunkState}
    {u : CompiledUnit} (hcap : cap ≤ 255)
    (h : processUnit sid t cap st u = .ok st')
    (hpk : ∀ p ∈ st.packets, PacketShape sid t p) (hcur : st.cur.length ≤ 255) :
    (∀ p ∈ st'.packets, PacketShape sid t p) ∧ st'.cur.length ≤ 255 := by
  cases u with
  | raw raw =>
    simp only [processUnit] at h
    cases hf : flushCur sid t st with
    | error e => simp [hf] at h
    | ok st1 =>
      simp only [hf] at h
      obtain ⟨hpk1, hcur1⟩ := flushCur_inv hf hpk hcur
      cases hr : compileRawDataToChunks raw sid t with
      | error e => simp [hr] at h
      | ok rawPackets =>
        simp only [hr, Except.ok.injEq] at h
        subst h
        have hshapes := compileRawDataToChunks_shape hr
        obtain ⟨hfold1, hfold2⟩ := appendPackets_inv hshapes st1 hpk1
        exact ⟨hfold1, by rw [hfold2, hcur1]; simp⟩
  | atom bin =>
    simp only [processUnit] at h
    by_cases hseg : 1 < (segmentDataIfNeeded bin).length
    · simp only [if_pos hseg] at h
      cases hf : flushCur sid t st with
      | error e => simp [hf] at h
      | ok stf =>
        simp only [hf] at h
        obtain ⟨hpkf, hcurf⟩ := flushCur_inv hf hpk hcur
        cases hfold : exceptFoldList
            (fun s js =>
              match buildPacket js.2 sid t with
              | .error e => .error e
              | .ok p =>
                .ok { s with packets := s.packets ++ [p],
                             info := s.info ++
                               [⟨p.length, decide (0 < js.1) || stf.inSeg,
                                 s.packets.length⟩] })
            stf (segmentDataIfNeeded bin).enum with
        | error e => simp [hfold] at h
        | ok stx =>
          simp only [hfold, Except.ok.injEq] at h
          subst h
          have hinv : (∀ p ∈ stx.packets, PacketShape sid t p) ∧
              stx.cur.length ≤ 255 := by
            refine exceptFoldList_inv (P := fun s =>
              (∀ p ∈ s.packets, PacketShape sid t p) ∧ s.cur.length ≤ 255)
              ?_ ⟨hpkf, by simp [hcurf]⟩ hfold
            intro s js s' hjs hs hstep
            cases hb : buildPacket js.2 sid t with
            | error e => rw [hb] at hstep; simp at hstep
            | ok p =>
              rw [hb] at hstep
              simp only [Except.ok.injEq] at hstep
              subst hstep
              have hsegle : js.2.length ≤ 255 := by
                have hmem2 : js.2 ∈ segmentDataIfNeeded bin :=
                  List.snd_mem_of_mem_enum hjs
                have := segmentDataIfNeeded_length_le bin js.2 hmem2
                simpa [MAX_SEGMENT_SIZE] using this
              refine ⟨?_, hs.2⟩
              intro q hq
              rcases List.mem_append.mp hq with hq' | hq'
              · exact hs.1 q hq'
              · rw [List.mem_singleton.mp hq']
                exact ⟨js.2, hsegle, hb⟩
          exact hinv
    · simp only [if_neg hseg] at h
      have hsingle := segmentDataIfNeeded_single (Nat.not_lt.mp hseg)
      have hbin : bin.length ≤ 255 := by
        have := hsingle.1
        simpa [MAX_SEGMENT_SIZE] using this
      have hhead : (segmentDataIfNeeded bin).headI = bin := by
        rw [hsingle.2]; rfl
      rw [hhead] at h
      by_cases hov : cap < st.cur.length + bin.length
      · simp only [if_pos hov] at h
        cases hf : flushCur sid t st with
        | error e => simp [hf] at h
        | ok st1 =>
          simp only [hf, Except.ok.injEq] at h
          subst h
          obtain ⟨hpk1, hcur1⟩ := flushCur_inv hf hpk hcur
          exact ⟨hpk1, by simp [hcur1, hbin]⟩
      · simp only [if_neg hov, Except.ok.injEq] at h
        subst h
        refine ⟨hpk, ?_⟩
        have := Nat.not_lt.mp hov
        simp only [List.length_append]
        omega

theorem processFdoScript_shape {units : List CompiledUnit} {sid : Nat} {t : PyStr}
    {res : ChunkResult} (h : processFdoScript units sid t = .ok (.pyDict res)) :
    ∀ p ∈ res.chunks, PacketShape sid t p := by
  unfold processFdoScript at h
  by_cases hu : units = []
  · simp [if_pos hu] at h
  · simp only [if_neg hu] at h
    cases hh : getHeaderSize t with
    | error e => simp [hh] at h
    | ok header =>
      simp only [hh] at h
      by_cases hg : MAX_OUTBOUND_SIZE ≤ header
      · simp [if_pos hg] at h
      · simp only [if_neg hg] at h
        cases hfold : exceptFoldList
            (processUnit sid t (MAX_OUTBOUND_SIZE - header)) ⟨[], [], [], false⟩
            units with
        | error e => simp [hfold] at h
        | ok st =>
          simp only [hfold] at h
          cases hf : flushCur sid t st with
          | error e => simp [hf] at h
          | ok st2 =>
            simp only [hf, Except.ok.injEq, ChunkerReturn.pyDict.injEq] at h
            have hcap : MAX_OUTBOUND_SIZE - header ≤ 255 := by
              simp only [MAX_OUTBOUND_SIZE]
              omega
            have hinv : (∀ p ∈ st.packets, PacketShape sid t p) ∧
                st.cur.length ≤ 255 := by
              refine exceptFoldList_inv (P := fun s =>
                (∀ p ∈ s.packets, PacketShape sid t p) ∧ s.cur.length ≤ 255)
                ?_ ⟨by simp, by simp⟩ hfold
              intro s a s' _ hs hstep
              exact processUnit_inv hcap hstep hs.1 hs.2
            obtain ⟨hpk2, _⟩ := flushCur_inv hf hinv.1 hinv.2
            intro p hp
            exact hpk2 p (by rw [← h] at hp; exact hp)

/-! ## Claim C1 -/

/-- C1 counterexample: a single atom unit whose compiled form is 116 bytes (at most
255 bytes, but above the 115-byte per-packet cap for token `AT`) makes the chunker
emit one packet of 120 bytes — the claimed universal 119-byte bound is false. -/
theorem C1_counterexample_packet_over_119 :
    processFdoScript [CompiledUnit.atom (List.replicate 116 0)] 0 ['A','T'] =
      .ok (.pyDict ⟨[[65, 84, 0, 0] ++ List.replicate 116 0], [⟨120, false, 0⟩]⟩) ∧
    119 < ([65, 84, 0, 0] ++ List.replicate 116 0 : Bytes).length := by
  constructor
  · set_option maxRecDepth 8000 in rfl
  · decide

/-- C1 (amended): every packet in the list produced by
`FdoChunker.process_fdo_script` begins with the token encoded as two ASCII bytes
followed by the stream id little-endian in `stream_id_width(T)` bytes, and after that
header carries at most 255 bytes of data — so `len(p) ≤ 2 + w + 255`, not
`len(p) ≤ 119`: single-segment units whose compiled form lies between the per-packet
cap and 255 bytes, and segmented units, produce packets above 119 bytes (raw_data
packets are bounded by 128 bytes, also above 119 for wide tokens). -/
theorem C1_chunker_packet_shape {units : List CompiledUnit} {sid : Nat}
    {token : PyStr} {res : ChunkResult} {w : Nat}
    (hw : tokenWidth token = some w)
    (h : processFdoScript units sid token = .ok (.pyDict res)) :
    ∀ p ∈ res.chunks, ∃ d : Bytes, d.length ≤ 255 ∧
      p = token.map Char.toNat ++ toLEBytes w sid ++ d ∧
      p.length ≤ 2 + w + 255 := by
  intro p hp
  obtain ⟨d, hd, hb⟩ := processFdoScript_shape h p hp
  refine ⟨d, hd, buildPacket_ok hw hb, ?_⟩
  have := buildPacket_length hw hb
  omega

/-- C1 witness: the amended statement applied at one unit compiling to `[1, 2, 3]`
with stream id 5 and token `AT`, at the single emitted packet. -/
theorem C1_chunker_packet_shape_witness :
    ∃ d : Bytes, d.length ≤ 255 ∧
      ([65, 84, 5, 0, 1, 2, 3] : Bytes) =
        (['A','T'].map Char.toNat) ++ toLEBytes 2 5 ++ d ∧
      ([65, 84, 5, 0, 1, 2, 3] : Bytes).length ≤ 2 + 2 + 255 :=
  C1_chunker_packet_shape (by decide)
    (show processFdoScript [CompiledUnit.atom [1, 2, 3]] 5 ['A','T'] =
        .ok (.pyDict ⟨[[65, 84, 5, 0, 1, 2, 3]], [⟨7, false, 0⟩]⟩) from rfl)
    [65, 84, 5, 0, 1, 2, 3] (by decide)

/-! ## Claim C2 -/

/-- C2: contrary to the spec's promised fallback width of 2, the payload builder
rejects two-character tokens outside the curated table: `build_packet` raises
`ValueError` for token `ZZ`, and `parse_packet_header` raises on a packet whose
leading two bytes spell `ZZ`. -/
theorem C2_unknown_token_rejected :
    tokenWidth ['Z','Z'] = none ∧
    buildPacket [] 0 ['Z','Z'] = .error "Invalid token" ∧
    parsePacketHeader [90, 90, 0, 0] = .error "Unknown token in packet header" :=
  ⟨rfl, rfl, rfl⟩

/-! ## Claim C5 -/

/-- C5: `segment_data_if_needed` is lossless and bounded: data of at most 255 bytes
comes back as the single unchanged segment; longer data starts with its first 255
bytes verbatim followed by continuation segments, each one marker byte `0x80 ||| k`
followed by `k ≤ 254` payload bytes; every segment has length at most 255; and the
first segment concatenated with the marker-stripped payloads of the rest reproduces
the data exactly. -/
theorem C5_segmentation_spec (data : Bytes) :
    (data.length ≤ 255 → segmentDataIfNeeded data = [data]) ∧
    (255 < data.length →
      segmentDataIfNeeded data =
        data.take 255 :: segmentRest (data.drop 255) ∧
      ∀ s ∈ segmentRest (data.drop 255), ∃ k tl, s = (0x80 ||| k) :: tl ∧
        tl.length = k ∧ 1 ≤ k ∧ k ≤ 254) ∧
    (∀ s ∈ segmentDataIfNeeded data, s.length ≤ 255) ∧
    (segmentDataIfNeeded data).headI ++
      ((segmentDataIfNeeded data).tail.map (fun s => s.drop 1)).flatten = data := by
  refine ⟨?_, ?_, ?_, ?_⟩
  · intro hle
    exact segmentDataIfNeeded_small hle
  · intro hlt
    refine ⟨segmentDataIfNeeded_big hlt, ?_⟩
    intro s hs
    obtain ⟨k, tl, hmk, hlen, h1, hk⟩ := segmentRest_shape (data.drop 255) s hs
    exact ⟨k, tl, hmk, hlen, h1, hk⟩
  · intro s hs
    exact segmentDataIfNeeded_length_le data s hs
  · exact segmentDataIfNeeded_join data

/-- C5 witness: the oversize conjunct applied to 300 bytes of `7`. -/
theorem C5_segmentation_spec_witness :
    segmentDataIfNeeded (List.replicate 300 7) =
      (List.replicate 300 7).take 255 ::
        segmentRest ((List.replicate 300 7).drop 255) ∧
    ∀ s ∈ segmentRest ((List.replicate 300 7).drop 255), ∃ k tl,
      s = (0x80 ||| k) :: tl ∧ tl.length = k ∧ 1 ≤ k ∧ k ≤ 254 :=
  (C5_segmentation_spec (List.replicate 300 7)).2.1
    (by rw [List.length_replicate]; omega)

/-! ## Claim C6 -/

theorem parsePacketHeader_fields {packet : Bytes} {hd : PacketHeader}
    (h : parsePacketHeader packet = .ok hd) :
    ∃ w, tokenWidth hd.token = some w ∧ hd.headerSize = 2 + w ∧
      hd.data = packet.drop (2 + w) ∧
      hd.streamId = fromLEBytes ((packet.drop 2).take w) := by
  unfold parsePacketHeader at h
  by_cases h2 : packet.length < 2
  · simp [if_pos h2] at h
  · simp only [if_neg h2] at h
    cases hw : tokenWidth (decodeAsciiIgnore (rstripNul (packet.take 2))) with
    | none => simp [hw] at h
    | some w =>
      simp only [hw] at h
      by_cases h3 : packet.length < 2 + w
      · simp [if_pos h3] at h
      · simp only [if_neg h3, Except.ok.injEq] at h
        subst h
        exact ⟨w, hw, rfl, rfl, rfl⟩

/-- C6: for every byte string that parses as a P3 frame, the detector reports an
embedded FDO payload iff the frame's packet type value is DATA (0x20) and
`parse_packet_header` succeeds on the frame's data; in that case the reported token
and stream id are those of the packet header and the reported payload equals
`frame.data[2+w:]` for the token's stream-id width `w`. -/
theorem C6_detector_iff {b : Bytes} {f : ParsedFrame}
    (h : parseFrame b = .ok f) :
    ((detectFdoInP3Frame b).fdoDetected = true ↔
      (f.packetTypeValue = 0x20 ∧ ∃ hd, parsePacketHeader f.data = .ok hd)) ∧
    (∀ hd, f.packetTypeValue = 0x20 → parsePacketHeader f.data = .ok hd →
      ∃ w, tokenWidth hd.token = some w ∧
        (detectFdoInP3Frame b).fdoToken = some hd.token ∧
        (detectFdoInP3Frame b).fdoStreamId = some hd.streamId ∧
        (detectFdoInP3Frame b).fdoData = some (f.data.drop (2 + w))) := by
  unfold detectFdoInP3Frame
  simp only [h]
  by_cases hptv : f.packetTypeValue ≠ 0x20
  · simp only [if_pos hptv]
    constructor
    · simp [emptyDetection]
      intro hc
      exact absurd hc hptv
    · intro hd hc
      exact absurd hc hptv
  · simp only [if_neg hptv]
    rw [not_not] at hptv
    by_cases hdat : f.data = []
    · simp only [if_pos hdat]
      constructor
      · simp only [emptyDetection]
        constructor
        · intro hc
          exact absurd hc (by simp)
        · rintro ⟨-, hd, hok⟩
          rw [hdat] at hok
          simp [parsePacketHeader] at hok
      · intro hd _ hok
        rw [hdat] at hok
        simp [parsePacketHeader] at hok
    · simp only [if_neg hdat]
      cases hph : parsePacketHeader f.data with
      | error e =>
        constructor
        · constructor
          · intro hc
            simp [emptyDetection] at hc
          · rintro ⟨-, hd, hok⟩
            exact Except.noConfusion hok
        · intro hd _ hok
          exact Except.noConfusion hok
      | ok hd =>
        constructor
        · constructor
          · intro _
            exact ⟨hptv, hd, rfl⟩
          · intro _
            rfl
        · intro hd' _ hok
          have hdd : hd' = hd := (Except.ok.inj hok).symm
          subst hdd
          obtain ⟨w, hw, _, hdata, _⟩ := parsePacketHeader_fields hph
          refine ⟨w, hw, rfl, rfl, ?_⟩
          simp [hdata]

/-- C6 witness: a concrete DATA frame carrying payload `AT 00 00 01 02 03`. -/
theorem C6_detector_iff_witness :
    ∃ w, tokenWidth ['A','T'] = some w ∧
      (detectFdoInP3Frame
        [0x5A, 0, 0, 0, 10, 0, 0, 0x20, 65, 84, 0, 0, 1, 2, 3, 0x0D]).fdoToken =
        some ['A','T'] ∧
      (detectFdoInP3Frame
        [0x5A, 0, 0, 0, 10, 0, 0, 0x20, 65, 84, 0, 0, 1, 2, 3, 0x0D]).fdoStreamId =
        some 0 ∧
      (detectFdoInP3Frame
        [0x5A, 0, 0, 0, 10, 0, 0, 0x20, 65, 84, 0, 0, 1, 2, 3, 0x0D]).fdoData =
        some (([65, 84, 0, 0, 1, 2, 3] : Bytes).drop (2 + w)) :=
  (C6_detector_iff
      (b := [0x5A, 0, 0, 0, 10, 0, 0, 0x20, 65, 84, 0, 0, 1, 2, 3, 0x0D])
      (f := { sync := 0x5A, crc := 0, length := 10, txSeq := 0, rxSeq := 0,
              typeField := 0x20, packetTypeValue := 0x20, clientPacket := false,
              data := [65, 84, 0, 0, 1, 2, 3], dataLength := 7, frameSize := 16 })
      rfl).2
    { token := ['A','T'], streamId := 0, headerSize := 4, dataSize := 3,
      data := [1, 2, 3] } rfl rfl

/-! ## Claim C7 -/

/-- C7 counterexample: the item `zz` inside the angle brackets is not hex-pair
syntax, yet `can_compile_manually` accepts the line and `compile_line` compiles it
manually (silently dropping `zz`) instead of refusing it to the worker. -/
theorem C7_counterexample_non_pair_item_not_refused :
    canCompileManually ("idb_append_data <01x, zz, 02x>".data) = true ∧
    compileLine ("idb_append_data <01x, zz, 02x>".data) =
      some [0x05, 0x0B, 0x80, 2, 0x01, 0x02] := by
  constructor
  · rfl
  · rfl

/-- C7 (amended): whenever the manual compiler emits, it emits exactly
`05 0B 80 len` followed by the values of the extracted hex pairs, with `len ≤ 255`;
it refuses (returning `None`, so the worker compiles instead) inputs whose brackets
yield more than 255 extracted pairs and inputs whose brackets yield no valid hex
pair — but bracket items that are not hex pairs are silently dropped rather than
causing a refusal. -/
theorem C7_manual_compiler_amended (line : PyStr) :
    (∀ out, compileLine line = some out →
      ∃ pairs, extractHexPairs line = some pairs ∧ pairs.length ≤ 255 ∧
        out = [0x05, 0x0B, 0x80, pairs.length] ++ pairs) ∧
    (∀ pairs, extractHexPairs (pyStrip line) = some pairs → 255 < pairs.length →
      compileLine line = none) ∧
    (extractHexPairs (pyStrip line) = none → compileLine line = none) := by
  refine ⟨?_, ?_, ?_⟩
  · intro out hout
    unfold compileLine at hout
    by_cases hcan : canCompileManually line
    · rw [if_neg (by simp [hcan])] at hout
      cases hat : getAtomType line with
      | none => rw [hat] at hout; exact Option.noConfusion hout
      | some a =>
        rw [hat] at hout
        cases hex : extractHexPairs line with
        | none => rw [hex] at hout; exact Option.noConfusion hout
        | some pairs =>
          rw [hex] at hout
          by_cases hlen : pairs.length > MAX_PAYLOAD_LENGTH
          · simp [compileHexPairs, hlen] at hout
          · simp only [compileHexPairs, if_neg hlen, Option.some.injEq] at hout
            refine ⟨pairs, rfl, ?_, hout.symm⟩
            simpa [MAX_PAYLOAD_LENGTH] using Nat.not_lt.mp hlen
    · rw [if_pos (by simp [hcan])] at hout
      exact Option.noConfusion hout
  · intro pairs hp hlen
    have hd : decide (pairs.length ≤ MAX_PAYLOAD_LENGTH) = false :=
      decide_eq_false (by simp only [MAX_PAYLOAD_LENGTH]; omega)
    have hcan : canCompileManually line = false := by
      simp [canCompileManually, hp, hd]
    unfold compileLine
    rw [if_pos (by simp [hcan])]
  · intro hp
    have hcan : canCompileManually line = false := by
      simp [canCompileManually, hp]
    unfold compileLine
    rw [if_pos (by simp [hcan])]

/-- C7 witness: the emission conjunct applied to a well-formed hex-pair line. -/
theorem C7_manual_compiler_amended_witness :
    ∃ pairs, extractHexPairs ("dod_data <0Ax, ffx>".data) = some pairs ∧
      pairs.length ≤ 255 ∧
      [0x05, 0x0B, 0x80, 0x02, 0x0A, 0xFF] =
        [0x05, 0x0B, 0x80, pairs.length] ++ pairs :=
  (C7_manual_compiler_amended ("dod_data <0Ax, ffx>".data)).1
    [0x05, 0x0B, 0x80, 0x02, 0x0A, 0xFF] rfl

/-! ## Claim C8 -/

theorem streamLoop_spec (externalCap : Nat → Bool)
    (hcap : ∀ n, externalCap n = false) :
    ∀ (lines : List JsonlLine) (st : StreamState),
      st.framesProcessed + lines.length < MAX_FRAMES_LIMIT →
      st.earlyTermination = none →
      (streamLoop externalCap st lines).parts =
        st.parts ++ lines.filterMap lineFdo ∧
      (streamLoop externalCap st lines).framesProcessed =
        st.framesProcessed + lines.length ∧
      (streamLoop externalCap st lines).fdoFramesFound =
        st.fdoFramesFound + (lines.filterMap lineFdo).length ∧
      (streamLoop externalCap st lines).earlyTermination = none := by
  intro lines
  induction lines with
  | nil =>
    intro st _ h2
    simp [streamLoop, h2]
  | cons l rest ih =>
    intro st h1 h2
    have hchk : checkSafetyLimits (st.framesProcessed + 1) externalCap = none := by
      unfold checkSafetyLimits
      rw [if_neg (by simp only [List.length_cons] at h1; omega), hcap]
      simp
    simp only [streamLoop, hchk]
    cases hp : parseSingleLine l with
    | none =>
      have hr := ih { st with framesProcessed := st.framesProcessed + 1 }
        (by simp only [List.length_cons] at h1; simp; omega) (by simp [h2])
      simp only [List.filterMap_cons, lineFdo, hp, Option.none_bind] at hr ⊢
      refine ⟨hr.1, ?_, hr.2.2.1, hr.2.2.2⟩
      rw [hr.2.1]
      simp only [List.length_cons]
      omega
    | some pf =>
      cases hx : extractFdoFromSingleFrame pf.2 with
      | none =>
        have hr := ih { st with framesProcessed := st.framesProcessed + 1 }
          (by simp only [List.length_cons] at h1; simp; omega) (by simp [h2])
        simp only [List.filterMap_cons, lineFdo, hp, hx, Option.some_bind] at hr ⊢
        refine ⟨hr.1, ?_, hr.2.2.1, hr.2.2.2⟩
        rw [hr.2.1]
        simp only [List.length_cons]
        omega
      | some r =>
        have hr := ih
          { st with framesProcessed := st.framesProcessed + 1,
                    parts := st.parts ++ [r],
                    fdoFramesFound := st.fdoFramesFound + 1,
                    supportedTokens :=
                      if r.token ∈ st.supportedTokens then st.supportedTokens
                      else st.supportedTokens ++ [r.token] }
          (by simp only [List.length_cons] at h1; simp; omega) (by simp [h2])
        simp only [List.filterMap_cons, lineFdo, hp, hx, Option.some_bind] at hr ⊢
        refine ⟨?_, ?_, ?_, hr.2.2.2⟩
        · rw [hr.1]
          simp
        · rw [hr.2.1]
          simp only [List.length_cons]
          omega
        · rw [hr.2.2.1]
          simp only [List.length_cons]
          omega

/-- C8: within the safety caps (fewer than 10 million lines, wall-clock and memory
checks never firing), two-pass processing detects the order from the timestamps of
the first 100 parseable lines (defaulting to `oldest_first` below two samples,
otherwise labelling by comparing the counts of increasing and decreasing
transitions), processes every line, finds exactly one record per FDO-carrying valid
frame, and returns those records in file order, reversed exactly when the detected
order is `newest_first`. -/
theorem C8_jsonl_two_pass (lines : List JsonlLine) (externalCap : Nat → Bool)
    (hlen : lines.length < MAX_FRAMES_LIMIT)
    (hcap : ∀ n, externalCap n = false) :
    (streamProcessFile lines externalCap).1 =
      (let samples := ((lines.filterMap parseSingleLine).take 100).map (·.1)
       if samples.length < 2 then oldestFirstStr
       else if (countIncDec samples).2 < (countIncDec samples).1 then oldestFirstStr
       else newestFirstStr) ∧
    (streamProcessFile lines externalCap).2.earlyTermination = none ∧
    (streamProcessFile lines externalCap).2.framesProcessed = lines.length ∧
    (streamProcessFile lines externalCap).2.fdoFramesFound =
      (lines.filterMap lineFdo).length ∧
    (streamProcessFile lines externalCap).2.parts =
      (if (streamProcessFile lines externalCap).1 = newestFirstStr
       then (lines.filterMap lineFdo).reverse
       else lines.filterMap lineFdo) := by
  obtain ⟨hparts, hproc, hfound, hearly⟩ :=
    streamLoop_spec externalCap hcap lines ⟨[], 0, 0, [], none⟩ (by simpa) rfl
  constructor
  · show (determineOrderFromSamples lines).1 = _
    unfold determineOrderFromSamples
    dsimp only
    by_cases hc1 :
        (((lines.filterMap parseSingleLine).take 100).map (fun x => x.1)).length < 2
    · rw [if_pos hc1, if_pos hc1]
    · rw [if_neg hc1, if_neg hc1]
      by_cases hc2 :
          (countIncDec
            (((lines.filterMap parseSingleLine).take 100).map (fun x => x.1))).2 <
            (countIncDec
              (((lines.filterMap parseSingleLine).take 100).map (fun x => x.1))).1
      · rw [if_pos hc2, if_pos hc2]
      · rw [if_neg hc2, if_neg hc2]
  · unfold streamProcessFile streamExtractFdoData
    by_cases horder : (determineOrderFromSamples lines).1 = newestFirstStr
    · simp only [horder, if_pos rfl]
      refine ⟨hearly, by simpa using hproc, by simpa using hfound, ?_⟩
      rw [hparts]
      simp
    · simp only [if_neg horder]
      refine ⟨hearly, by simpa using hproc, by simpa using hfound, ?_⟩
      rw [hparts]
      simp

/-- C8 witness: a three-line file whose timestamps decrease (5, 4, 3), each line a
DATA frame carrying `AT 00 00 01 02 03`. -/
theorem C8_jsonl_two_pass_witness :
    (streamProcessFile
        [JsonlLine.frame 5 ("5A0000000A000020415400000102030D".data),
         JsonlLine.frame 4 ("5A0000000A000020415400000102030D".data),
         JsonlLine.frame 3 ("5A0000000A000020415400000102030D".data)]
        (fun _ => false)).1 =
      (let samples :=
        (([JsonlLine.frame 5 ("5A0000000A000020415400000102030D".data),
           JsonlLine.frame 4 ("5A0000000A000020415400000102030D".data),
           JsonlLine.frame 3 ("5A0000000A000020415400000102030D".data)].filterMap
            parseSingleLine).take 100).map (·.1)
       if samples.length < 2 then oldestFirstStr
       else if (countIncDec samples).2 < (countIncDec samples).1 then oldestFirstStr
       else newestFirstStr) ∧
    (streamProcessFile
        [JsonlLine.frame 5 ("5A0000000A000020415400000102030D".data),
         JsonlLine.frame 4 ("5A0000000A000020415400000102030D".data),
         JsonlLine.frame 3 ("5A0000000A000020415400000102030D".data)]
        (fun _ => false)).2.earlyTermination = none ∧
    (streamProcessFile
        [JsonlLine.frame 5 ("5A0000000A000020415400000102030D".data),
         JsonlLine.frame 4 ("5A0000000A000020415400000102030D".data),
         JsonlLine.frame 3 ("5A0000000A000020415400000102030D".data)]
        (fun _ => false)).2.framesProcessed =
      ([JsonlLine.frame 5 ("5A0000000A000020415400000102030D".data),
        JsonlLine.frame 4 ("5A0000000A000020415400000102030D".data),
        JsonlLine.frame 3 ("5A0000000A000020415400000102030D".data)] :
        List JsonlLine).length ∧
    (streamProcessFile
        [JsonlLine.frame 5 ("5A0000000A000020415400000102030D".data),
         JsonlLine.frame 4 ("5A0000000A000020415400000102030D".data),
         JsonlLine.frame 3 ("5A0000000A000020415400000102030D".data)]
        (fun _ => false)).2.fdoFramesFound =
      ([JsonlLine.frame 5 ("5A0000000A000020415400000102030D".data),
        JsonlLine.frame 4 ("5A0000000A000020415400000102030D".data),
        JsonlLine.frame 3 ("5A0000000A000020415400000102030D".data)].filterMap
        lineFdo).length ∧
    (streamProcessFile
        [JsonlLine.frame 5 ("5A0000000A000020415400000102030D".data),
         JsonlLine.frame 4 ("5A0000000A000020415400000102030D".data),
         JsonlLine.frame 3 ("5A0000000A000020415400000102030D".data)]
        (fun _ => false)).2.parts =
      (if (streamProcessFile
            [JsonlLine.frame 5 ("5A0000000A000020415400000102030D".data),
             JsonlLine.frame 4 ("5A0000000A000020415400000102030D".data),
             JsonlLine.frame 3 ("5A0000000A000020415400000102030D".data)]
            (fun _ => false)).1 = newestFirstStr
       then ([JsonlLine.frame 5 ("5A0000000A000020415400000102030D".data),
              JsonlLine.frame 4 ("5A0000000A000020415400000102030D".data),
              JsonlLine.frame 3 ("5A0000000A000020415400000102030D".data)].filterMap
              lineFdo).reverse
       else [JsonlLine.frame 5 ("5A0000000A000020415400000102030D".data),
             JsonlLine.frame 4 ("5A0000000A000020415400000102030D".data),
             JsonlLine.frame 3 ("5A0000000A000020415400000102030D".data)].filterMap
              lineFdo) :=
  C8_jsonl_two_pass _ _ (by decide) (fun _ => rfl)

/-! ## Claim C9 -/

/-- C9: for every pool instance the health-monitor step observes (one with a
manager) whose `is_processing` flag is set, whose `request_started_at` stamp is a
truthy time `t ≤ now`, and which has been running for strictly more than 30 seconds,
the step routes it through `markStuck` — clearing the processing flag and the stamp,
marking it `unhealthy`, and incrementing `consecutive_failures` — and then initiates
a restart (incrementing `restart_count`) exactly when `restart_count` is below
`max_restart_attempts`; all of this happens inside `_perform_health_checks`,
independently of any client request.  (A completed restart then overwrites the
transient `unhealthy` state with `healthy` or `crashed`.) -/
theorem C9_stuck_request_handling (p : PoolState) (maxR now : Nat)
    (healthProbe : Nat → Option Bool) (restartOk : Nat → Bool)
    (i : Nat) (inst : DaemonInstance) (startT : Nat)
    (hget : p.instances.get? i = some inst)
    (hmgr : inst.hasManager = true)
    (hproc : inst.isProcessing = true)
    (hstart : inst.requestStartedAt = some startT)
    (hnz : startT ≠ 0)
    (hstuck : REQUEST_TIMEOUT_MS < now - startT) :
    ∃ r, (performHealthChecks maxR now healthProbe restartOk p).instances.get? i =
        some r ∧
      r = (if (markStuck inst).restartCount < maxR
           then restartInstance maxR (restartOk i) (markStuck inst)
           else markStuck inst) ∧
      r.isProcessing = false ∧ r.requestStartedAt = none ∧
      ((markStuck inst).state = unhealthyStr ∧
        (markStuck inst).isProcessing = false ∧
        (markStuck inst).requestStartedAt = none ∧
        (markStuck inst).consecutiveFailures = inst.consecutiveFailures + 1) ∧
      (inst.restartCount < maxR → r.restartCount = inst.restartCount + 1) ∧
      (maxR ≤ inst.restartCount →
        r.state = unhealthyStr ∧
        r.consecutiveFailures = inst.consecutiveFailures + 1 ∧
        r.restartCount = inst.restartCount) := by
  have hflags : ∀ (ok : Bool) (x : DaemonInstance),
      (restartInstance maxR ok x).isProcessing = x.isProcessing ∧
      (restartInstance maxR ok x).requestStartedAt = x.requestStartedAt := by
    intro ok x
    unfold restartInstance
    by_cases h1 : maxR ≤ x.restartCount
    · rw [if_pos h1]; exact ⟨rfl, rfl⟩
    · rw [if_neg h1]
      by_cases h2 : ok = true
      · rw [if_pos h2]; exact ⟨rfl, rfl⟩
      · rw [if_neg h2]; exact ⟨rfl, rfl⟩
  have hcount : ∀ (ok : Bool) (x : DaemonInstance), x.restartCount < maxR →
      (restartInstance maxR ok x).restartCount = x.restartCount + 1 := by
    intro ok x hx
    unfold restartInstance
    rw [if_neg (by omega)]
    by_cases h2 : ok = true
    · rw [if_pos h2]
    · rw [if_neg h2]
  have hcheck : healthCheckInstance maxR now (healthProbe i) (restartOk i) inst =
      (if (markStuck inst).restartCount < maxR
       then restartInstance maxR (restartOk i) (markStuck inst)
       else markStuck inst) := by
    unfold healthCheckInstance
    rw [if_neg (by rw [hmgr]; simp)]
    rw [if_pos ⟨hproc, by rw [hstart]; simp [pyTruthyTime, hnz],
      by rw [hstart]; simpa using hstuck⟩]
  refine ⟨healthCheckInstance maxR now (healthProbe i) (restartOk i) inst, ?_, hcheck,
    ?_, ?_, ?_, ?_, ?_⟩
  · unfold performHealthChecks
    simp only [List.get?_map, List.get?_enum, hget, Option.map_some]
    rfl
  · rw [hcheck]
    by_cases hr : (markStuck inst).restartCount < maxR
    · rw [if_pos hr, (hflags (restartOk i) (markStuck inst)).1]
      rfl
    · rw [if_neg hr]
      rfl
  · rw [hcheck]
    by_cases hr : (markStuck inst).restartCount < maxR
    · rw [if_pos hr, (hflags (restartOk i) (markStuck inst)).2]
      rfl
    · rw [if_neg hr]
      rfl
  · exact ⟨rfl, rfl, rfl, rfl⟩
  · intro hlt
    have hms : (markStuck inst).restartCount = inst.restartCount := rfl
    rw [hcheck, if_pos (by omega), hcount (restartOk i) (markStuck inst) (by omega),
      hms]
  · intro hge
    have hms : (markStuck inst).restartCount = inst.restartCount := rfl
    rw [hcheck, if_neg (by omega)]
    exact ⟨rfl, rfl, rfl⟩

/-- C9 witness: a single-instance pool holding `stuckInst`, checked at
now = 40000 ms with 5 restart attempts allowed. -/
theorem C9_stuck_request_handling_witness :
    ∃ r, (performHealthChecks 5 40000 (fun _ => some true) (fun _ => true)
        ⟨[stuckInst], 0⟩).instances.get? 0 = some r ∧
      r = (if (markStuck stuckInst).restartCount < 5
           then restartInstance 5 true (markStuck stuckInst)
           else markStuck stuckInst) ∧
      r.isProcessing = false ∧ r.requestStartedAt = none ∧
      ((markStuck stuckInst).state = unhealthyStr ∧
        (markStuck stuckInst).isProcessing = false ∧
        (markStuck stuckInst).requestStartedAt = none ∧
        (markStuck stuckInst).consecutiveFailures =
          stuckInst.consecutiveFailures + 1) ∧
      (stuckInst.restartCount < 5 → r.restartCount = stuckInst.restartCount + 1) ∧
      (5 ≤ stuckInst.restartCount →
        r.state = unhealthyStr ∧
        r.consecutiveFailures = stuckInst.consecutiveFailures + 1 ∧
        r.restartCount = stuckInst.restartCount) :=
  C9_stuck_request_handling ⟨[stuckInst], 0⟩ 5 40000 (fun _ => some true)
    (fun _ => true) 0 stuckInst 1000 rfl rfl rfl rfl (by decide) (by decide)


/-! ## Claim C4 -/

theorem ghiLoop_all_open {now : Nat} :
    ∀ (n : Nat) (p : PoolState),
      (∀ inst ∈ p.instances, inst.circuitBreakerOpen = true) →
      (ghiLoop now n p).1 = none ∧ (ghiLoop now n p).2.instances = p.instances := by
  intro n
  induction n with
  | zero => intro p _; exact ⟨rfl, rfl⟩
  | succ n ih =>
    intro p h
    unfold ghiLoop
    by_cases hc : ((p.instances.get? p.currentIndex).getD default).state =
        healthyStr ∧
        ((p.instances.get? p.currentIndex).getD default).circuitBreakerOpen =
          false ∧
        ((p.instances.get? p.currentIndex).getD default).isProcessing = false
    · exfalso
      cases hg : p.instances.get? p.currentIndex with
      | none =>
        rw [hg] at hc
        exact absurd hc.1 (by decide)
      | some x =>
        have hmem : x ∈ p.instances := List.get?_mem hg
        rw [hg] at hc
        simp only [Option.getD_some] at hc
        rw [h x hmem] at hc
        exact Bool.noConfusion hc.2.1
    · rw [if_neg hc]
      exact ih _ (by simpa using h)

theorem getHealthyInstance_all_open (now : Nat) (p : PoolState)
    (h : ∀ inst ∈ p.instances, inst.circuitBreakerOpen = true)
    {o : Option Nat} {p' : PoolState}
    (hga : getHealthyInstance now p = (o, p')) :
    o = none ∧ p'.instances = p.instances := by
  have hpair : (getHealthyInstance now p).1 = none ∧
      (getHealthyInstance now p).2.instances = p.instances := by
    unfold getHealthyInstance
    by_cases he : p.instances = []
    · rw [if_pos he]
      exact ⟨rfl, rfl⟩
    · rw [if_neg he]
      exact ghiLoop_all_open p.instances.length p h
  rw [hga] at hpair
  exact hpair

theorem ghiaLoop_all_open (deadline backoff : Nat) :
    ∀ (fuel : Nat) (p : PoolState) (now : Nat),
      (∀ inst ∈ p.instances, inst.circuitBreakerOpen = true) →
      now ≤ deadline →
      (ghiaLoop deadline backoff fuel p now).1 = none ∧
      (ghiaLoop deadline backoff fuel p now).2.1.instances = p.instances ∧
      (ghiaLoop deadline backoff fuel p now).2.2 ≤ deadline := by
  intro fuel
  induction fuel with
  | zero =>
    intro p now h hnd
    rcases hga : getHealthyInstance now p with ⟨o, p'⟩
    obtain ⟨ho, h2⟩ := getHealthyInstance_all_open now p h hga
    subst ho
    rw [ghiaLoop]
    simp only [hga]
    exact ⟨trivial, h2, hnd⟩
  | succ fuel ih =>
    intro p now h hnd
    rcases hga : getHealthyInstance now p with ⟨o, p'⟩
    obtain ⟨ho, h2⟩ := getHealthyInstance_all_open now p h hga
    subst ho
    rw [ghiaLoop]
    simp only [hga]
    by_cases hrec : 0 < backoff ∧ now + backoff ≤ deadline
    · rw [if_pos hrec]
      have hr := ih p' (now + backoff) (by rw [h2]; exact h) hrec.2
      exact ⟨hr.1, by rw [hr.2.1, h2], hr.2.2⟩
    · rw [if_neg hrec]
      exact ⟨rfl, h2, hnd⟩

theorem ghia_all_open (p : PoolState) (now deadline backoff : Nat)
    (h : ∀ inst ∈ p.instances, inst.circuitBreakerOpen = true)
    (hnd : now ≤ deadline) :
    (getHealthyInstanceAsync p now deadline backoff).1 = none ∧
    (getHealthyInstanceAsync p now deadline backoff).2.1.instances = p.instances ∧
    (getHealthyInstanceAsync p now deadline backoff).2.2 ≤ deadline :=
  ghiaLoop_all_open deadline backoff (deadline - now) p now h hnd

/-- C4 (spec-modelled): `get_healthy_instance_async` is called by the pool client
but defined nowhere in the repository; with it modelled from the spec as a
backoff-retry loop over `get_healthy_instance` up to the deadline, a pool in which
every instance has an open circuit breaker makes any compile or decompile call
through `_execute_with_retry` fail with the "no healthy instances" error, no
instance having been attempted, after waiting at most the 5-second acquisition
timeout. -/
theorem C4_all_circuits_open_fails_within_timeout (p : PoolState)
    (maxRetries threshold backoff : Nat) (opOutcome : Nat → Bool) (now : Nat)
    (hmr : 0 < maxRetries)
    (h : ∀ inst ∈ p.instances, inst.circuitBreakerOpen = true) :
    (executeWithRetry maxRetries threshold backoff opOutcome p now).1 =
      .error (.noHealthyInstances 0) ∧
    (executeWithRetry maxRetries threshold backoff opOutcome p now).2.2 ≤
      now + ACQUIRE_TIMEOUT_MS := by
  obtain ⟨h1, _, h3⟩ :=
    ghia_all_open p now (now + ACQUIRE_TIMEOUT_MS) backoff h (by omega)
  obtain ⟨m, rfl⟩ : ∃ m, maxRetries = m + 1 := ⟨maxRetries - 1, by omega⟩
  unfold executeWithRetry
  rcases hga : getHealthyInstanceAsync p now (now + ACQUIRE_TIMEOUT_MS) backoff
    with ⟨o, p', now'⟩
  rw [hga] at h1 h3
  have ho : o = none := h1
  subst ho
  have hnow : (((none : Option Nat), p', now') :
      Option Nat × PoolState × Nat).2.2 ≤ now + ACQUIRE_TIMEOUT_MS := h3
  simp only [executeWithRetryLoop, hga]
  exact ⟨rfl, hnow⟩

/-- C4 witness: a two-instance pool, both circuits open, three retries allowed. -/
theorem C4_all_circuits_open_fails_within_timeout_witness :
    (executeWithRetry 3 3 100 (fun _ => false)
        ⟨[openCircuitInst, openCircuitInst], 0⟩ 0).1 =
      .error (.noHealthyInstances 0) ∧
    (executeWithRetry 3 3 100 (fun _ => false)
        ⟨[openCircuitInst, openCircuitInst], 0⟩ 0).2.2 ≤ 0 + ACQUIRE_TIMEOUT_MS :=
  C4_all_circuits_open_fails_within_timeout ⟨[openCircuitInst, openCircuitInst], 0⟩
    3 3 100 (fun _ => false) 0 (by decide) (by decide)

/-! ## Claim C3 -/

/-- C3: the `is_processing` flag is NOT cleared on every control path of
`_execute_with_retry`.  On a one-instance pool whose operation always fails, the
first attempt acquires and (through the `finally`) releases the instance; the second
acquisition returns the same instance, the `instance.id in attempted_instances` skip
path runs `attempts += 1; continue` without entering the `try/finally`, and the call
finally raises "no healthy instances" with the instance's `is_processing` still
`true` (and its `request_started_at` still stamped) — the flag leaks. -/
theorem C3_skip_path_leaks_processing_flag :
    (executeWithRetry 3 3 1000 (fun _ => false) ⟨[idleInst], 0⟩ 0).1 =
      .error (.noHealthyInstances 1) ∧
    ((executeWithRetry 3 3 1000 (fun _ => false)
        ⟨[idleInst], 0⟩ 0).2.1.instances.get? 0).map
      (fun inst => inst.isProcessing) = some true ∧
    ((executeWithRetry 3 3 1000 (fun _ => false)
        ⟨[idleInst], 0⟩ 0).2.1.instances.get? 0).map
      (fun inst => inst.requestStartedAt) = some (some 200) := by
  exact ⟨rfl, by decide, by decide⟩

/-! ## Claim C10 -/

/-- C10: when the parsed source yields no atom units, `process_fdo_script` returns a
bare empty Python list, never the documented `{chunks, chunk_info}` dict; therefore
`chunk_and_validate`, which subscripts the result by key, fails on such input with a
`TypeError`. -/
theorem C10_empty_units_bare_list (units : List CompiledUnit) (sid : Nat)
    (token : PyStr) (h : units = []) :
    processFdoScript units sid token = .ok (.pyList []) ∧
    (∀ res, processFdoScript units sid token ≠ .ok (.pyDict res)) ∧
    (chunkAndValidate units sid token).success = false ∧
    (chunkAndValidate units sid token).errorMsg =
      some "TypeError: list indices must be integers" := by
  subst h
  refine ⟨rfl, ?_, rfl, rfl⟩
  intro res hres
  rw [show processFdoScript [] sid token = .ok (.pyList []) from rfl] at hres
  exact ChunkerReturn.noConfusion (Except.ok.inj hres)

/-- C10 witness: the statement applied at the empty unit list, stream id 0,
token `AT`. -/
theorem C10_empty_units_bare_list_witness :
    processFdoScript [] 0 ['A','T'] = .ok (.pyList []) ∧
    (∀ res, processFdoScript [] 0 ['A','T'] ≠ .ok (.pyDict res)) ∧
    (chunkAndValidate [] 0 ['A','T']).success = false ∧
    (chunkAndValidate [] 0 ['A','T']).errorMsg =
      some "TypeError: list indices must be integers" :=
  C10_empty_units_bare_list [] 0 ['A','T'] rfl

end AtomForge
